import Mathlib

/-!
# The custom entrypoint binary supervisor (`internal/ceb/ceb.go`)

A shallow embedding of `src/internal/ceb/ceb.go` and proofs about it.

Modelling conventions.

* A cleanup action (a Go `func()` handed to `CEB.cleanup`) is a label of an arbitrary type `α`;
  executing it appends the label to a list of executed actions.  Actions are assumed non-nil,
  not to panic, and not to call back into the `CEB`.
* The closure that `CEB.cleanup` stores in `cleanupFunc` is defunctionalised as `Func.closure`,
  carrying the two variables it captures (`oldF` and `f`).
* The process environment is a map from variable names to optional values; `os.Getenv` reads an
  unset variable as the empty string.
* Collaborators that live outside `ceb.go` (`server.Id`, `initChildCmd`, `init`,
  `execChildCmd`, the scheduling of the `select`) are parameters collected in `World`.
* The fields `logger`, `context`, `urlAgentMu`, `urlAgentCtx` and `urlAgentCancel` of `CEB`
  and the field `cebPtr` of `config` are written by no code of `ceb.go` after construction and
  are left out of the records.  The test helper `withCEBValue`, which sends the `CEB` on a
  channel, is not modelled.
* `Run` is followed up to its return, up to the channel receive on which it blocks forever, or
  up to the nil dereference of `ceb.childCmd.Process.Kill()` when no child process exists; in
  the last case the deferred `Close` still runs before the panic leaves `Run`.
* `strconv.Atoi` and `strconv.Itoa` belong to the Go standard library; they are modelled for
  a 64-bit `int`.
-/

namespace ceb

/-! ## Errors -/

/-- The two gRPC status codes used by `Run`. -/
inductive Code where
  | Internal
  | Aborted
  deriving DecidableEq, Repr

/-- The two sentinel errors a `*strconv.NumError` can wrap. -/
inductive NumErrKind where
  | ErrSyntax
  | ErrRange
  deriving DecidableEq, Repr

/-- Go `error` values.  Formatted errors keep their format string and their argument instead of
the rendered text. -/
inductive Error where
  /-- An error value produced by a collaborator. -/
  | ext (n : Nat)
  /-- The value `&strconv.NumError{Func: fn, Num: num, Err: kind}`. -/
  | numError (fn : String) (num : String) (kind : NumErrKind)
  /-- The value of `fmt.Errorf(format, arg)`. -/
  | errorf (format : String) (arg : Error)
  /-- The value of `status.Errorf(code, format, arg)`. -/
  | status (code : Code) (format : String) (arg : Error)
  deriving DecidableEq, Repr

/-! ## `strconv.Atoi` and `strconv.Itoa` (Go standard library, 64-bit `int`) -/

/-- The constant `maxUint64`. -/
def maxUint64 : Nat := 2 ^ 64 - 1

/-- The digit loop of `strconv.ParseUint(s, 10, 0)`: `n` is the accumulator.  A byte that is
not a decimal digit is a syntax error (the underscore is only accepted for base 0); an
accumulator that would leave 64 bits is a range error. -/
def parseUintLoop : List Char → Nat → Except NumErrKind Nat
  | [], n => .ok n
  | c :: cs, n =>
    if '0' ≤ c ∧ c ≤ '9' then
      let d := c.toNat - '0'.toNat
      if n ≥ maxUint64 / 10 + 1 then .error .ErrRange
      else
        let n10 := n * 10
        let n1 := (n10 + d) % 2 ^ 64
        if n1 < n10 ∨ n1 > maxUint64 then .error .ErrRange
        else parseUintLoop cs n1
    else .error .ErrSyntax

/-- The function `strconv.ParseUint(s, 10, 0)` on the bytes of `s`. -/
def ParseUint (s : List Char) : Except NumErrKind Nat :=
  if s = [] then .error .ErrSyntax else parseUintLoop s 0

/-- The function `strconv.ParseInt(s, 10, 0)`: an optional sign, then `ParseUint`, then the
check against the signed 64-bit range. -/
def ParseInt (s : List Char) : Except NumErrKind Int :=
  match s with
  | [] => .error .ErrSyntax
  | c :: rest =>
    let neg := c = '-'
    let body := if c = '+' ∨ c = '-' then rest else s
    match ParseUint body with
    | .error k => .error k
    | .ok un =>
      if ¬ neg ∧ un ≥ 2 ^ 63 then .error .ErrRange
      else if neg ∧ un > 2 ^ 63 then .error .ErrRange
      else .ok (if neg then -(un : Int) else (un : Int))

/-- The body of the digit loop in the fast path of `strconv.Atoi`; `acc` is the accumulator,
or the error the loop has already returned. -/
def fastStep (acc : Except NumErrKind Nat) (ch : Char) : Except NumErrKind Nat :=
  match acc with
  | .error k => .error k
  | .ok n => if '0' ≤ ch ∧ ch ≤ '9' then .ok (n * 10 + (ch.toNat - '0'.toNat))
             else .error .ErrSyntax

/-- The fast path of `strconv.Atoi`, taken for strings of 1 to 18 bytes: no overflow check is
needed there. -/
def atoiFast (s : List Char) : Except NumErrKind Int :=
  match s with
  | [] => .error .ErrSyntax
  | c :: rest =>
    let body := if c = '-' ∨ c = '+' then rest else s
    if body = [] then .error .ErrSyntax
    else
      match body.foldl fastStep (.ok 0) with
      | .error k => .error k
      | .ok n => .ok (if c = '-' then -(n : Int) else (n : Int))

/-- The function `strconv.Atoi`: the parsed `int`, or a `*strconv.NumError` naming `Atoi` and
the input. -/
def Atoi (s : String) : Except Error Int :=
  let r := if 0 < s.utf8ByteSize ∧ s.utf8ByteSize < 19 then atoiFast s.data else ParseInt s.data
  match r with
  | .ok i => .ok i
  | .error k => .error (.numError "Atoi" s k)

/-- The function `strconv.Itoa`: the decimal rendering of an `int`. -/
def Itoa (i : Int) : String := toString i

/-! ## The process environment -/

/-- The process environment: a variable is unset (`none`) or has a value. -/
abbrev Env := String → Option String

/-- The function `os.Getenv`: the value of the variable, empty when it is unset. -/
def Getenv (env : Env) (key : String) : String := (env key).getD ""

/-- The function `os.Setenv` (for a well-formed key and value, where it cannot fail). -/
def Setenv (env : Env) (key value : String) : Env :=
  fun k => if k = key then some value else env k

/-! ## The cleanup chain -/

/-- Values of Go type `func()` held in `CEB.cleanupFunc`: `nil`, or the function literal built
by `CEB.cleanup`, which captures `oldF` and `f`. -/
inductive Func (α : Type) where
  | nil : Func α
  | closure (oldF : Func α) (f : α) : Func α
  deriving DecidableEq, Repr

/-- The test `g != nil`. -/
def Func.isNil {α : Type} : Func α → Bool
  | .nil => true
  | .closure _ _ => false

/-- Calling a `func()` value: the actions executed, in order.  The body of the literal is
`defer f(); if oldF != nil { oldF() }`, so `oldF` runs first and the deferred `f` last.
Calling `nil` is a panic in Go; both call sites test for `nil` first and never reach that
case. -/
def Func.call {α : Type} : Func α → List α
  | .nil => []
  | .closure oldF f => (if oldF.isNil then [] else oldF.call) ++ [f]

/-- The struct `exec.Cmd`, reduced to the field `Run` reads: `Process` is `nil` (`none`) until
the process has been started. -/
structure Cmd where
  Process : Option Nat
  deriving DecidableEq, Repr

/-- The struct `CEB` (fields without a role in `ceb.go` are left out, see the header). -/
structure CEB (α : Type) where
  id : String
  deploymentId : String
  client : Option Nat
  childCmd : Option Cmd
  execIdx : Int
  cleanupFunc : Func α

/-- The method `CEB.Close`: runs `cleanupFunc` when it is not `nil` and returns `nil`.  The
result is the list of actions executed and the returned error; the receiver is not written. -/
def CEB.Close {α : Type} (c : CEB α) : List α × Option Error :=
  let f := c.cleanupFunc
  ((if f.isNil then [] else f.call), none)

/-- The method `CEB.cleanup`: replaces `cleanupFunc` by a closure over the old value and `f`. -/
def CEB.cleanup {α : Type} (c : CEB α) (f : α) : CEB α :=
  let oldF := c.cleanupFunc
  { c with cleanupFunc := .closure oldF f }

/-- The method `CEB.DeploymentId`. -/
def CEB.DeploymentId {α : Type} (c : CEB α) : String := c.deploymentId

/-! ## Configuration and options -/

/-- The struct `config`; its zero value is the `default` of the structure. -/
structure config where
  disable : Bool := false
  ExecArgs : List String := []
  ServerAddr : String := ""
  ServerRequired : Bool := false
  ServerTls : Bool := false
  ServerTlsSkipVerify : Bool := false
  InviteToken : String := ""
  URLServicePort : Int := 0
  deriving DecidableEq, Repr

/-- What an option can read and write: the `CEB` and the `config` it is handed, and the
process environment. -/
structure State (α : Type) where
  ceb : CEB α
  cfg : config
  env : Env

/-- The type `Option` of the source, `func(*CEB, *config) error`: the state it leaves and the
error it returns (`none` is `nil`). -/
abbrev OptionFn (α : Type) := State α → State α × Option Error

/-! The names of the environment variables read by `WithEnvDefaults`. -/

def envDeploymentId : String := "WAYPOINT_DEPLOYMENT_ID"
def envServerAddr : String := "WAYPOINT_SERVER_ADDR"
def envServerTls : String := "WAYPOINT_SERVER_TLS"
def envServerTlsSkipVerify : String := "WAYPOINT_SERVER_TLS_SKIP_VERIFY"
def envCEBDisable : String := "WAYPOINT_CEB_DISABLE"
def envCEBServerRequired : String := "WAYPOINT_CEB_SERVER_REQUIRED"
def envCEBToken : String := "WAYPOINT_CEB_INVITE_TOKEN"

/-- The constant `DefaultPort`. -/
def DefaultPort : Int := 5000

/-- The assignments at the end of `WithEnvDefaults` (lines 185 to 195), made once the port is
known; `env` is the environment at that point. -/
def envAssign {α : Type} (s : State α) (env : Env) (port : Int) : State α :=
  { ceb := { s.ceb with deploymentId := Getenv env envDeploymentId }
    cfg := { s.cfg with
      URLServicePort := port
      ServerAddr := Getenv env envServerAddr
      ServerRequired := Getenv env envCEBServerRequired != ""
      ServerTls := Getenv env envServerTls != ""
      ServerTlsSkipVerify := Getenv env envServerTlsSkipVerify != ""
      InviteToken := Getenv env envCEBToken
      disable := Getenv env envCEBDisable != "" }
    env := env }

/-- The option `WithEnvDefaults()`. -/
def WithEnvDefaults {α : Type} : OptionFn α := fun s =>
  let portStr := Getenv s.env "PORT"
  if portStr = "" then
    let env := Setenv s.env "PORT" (Itoa DefaultPort)
    (envAssign s env DefaultPort, none)
  else
    match Atoi portStr with
    | .error err => (s, some (.errorf "Invalid value of PORT: %s" err))
    | .ok i => (envAssign s s.env i, none)

/-- The option `WithExec(args)`. -/
def WithExec {α : Type} (args : List String) : OptionFn α := fun s =>
  ({ s with cfg := { s.cfg with ExecArgs := args } }, none)

/-- The option `WithClient(client)`. -/
def WithClient {α : Type} (client : Option Nat) : OptionFn α := fun s =>
  ({ s with ceb := { s.ceb with client := client } }, none)

/-! ## `Run` -/

/-- The observable steps of `Run`, in the order they happen. -/
inductive Event (α : Type) where
  /-- The call `o(ceb, &cfg)` for the option at index `i` of the list. -/
  | option (i : Nat)
  /-- A call of `ceb.logger.Info` with this message. -/
  | log (msg : String)
  /-- The call `ceb.initChildCmd(ctx, &cfg)`. -/
  | initChildCmd
  /-- The call `ceb.init(ctx, &cfg, false)`. -/
  | init
  /-- The call `ceb.execChildCmd(ctx)`, which starts the child. -/
  | execChildCmd
  /-- A value received from `errCh`. -/
  | recvErrCh (e : Option Error)
  /-- A value received from `ctx.Done()`. -/
  | ctxDone
  /-- The call `ceb.childCmd.Process.Kill()`. -/
  | kill
  /-- The deferred call `ceb.Close()`. -/
  | close
  /-- A cleanup action being executed. -/
  | action (a : α)
  deriving DecidableEq, Repr

/-- How the `select` of `Run` and the receive after it go. -/
inductive Select where
  /-- The case `err := <-errCh` is taken and receives `e`. -/
  | errCh (e : Option Error)
  /-- The case `<-ctx.Done()` is taken; the receive `<-errCh` that follows the kill yields
  `later`, or blocks forever when `later` is `none`. -/
  | ctxDone (later : Option (Option Error))
  /-- Neither channel ever becomes ready. -/
  | never
  deriving DecidableEq, Repr

/-- The collaborators of `Run` that are defined outside `ceb.go`. -/
structure World (α : Type) where
  /-- The result of `server.Id()`. -/
  serverId : Except Error String
  /-- The process environment when `Run` starts. -/
  env : Env
  /-- The method `ceb.initChildCmd`. -/
  initChildCmd : State α → State α × Option Error
  /-- The method `ceb.init` (called with `false`). -/
  init : State α → State α × Option Error
  /-- The method `ceb.execChildCmd`; the channel it returns is read through `sel`. -/
  execChildCmd : State α → State α
  /-- The scheduling of the `select`. -/
  sel : Select

/-- Whether `Run` returned, and what. -/
inductive Outcome where
  /-- Run returned this error (`none` is `nil`). -/
  | returned (err : Option Error)
  /-- Run is blocked forever on a channel receive. -/
  | blocked
  /-- Run panicked on a nil pointer dereference and did not return. -/
  | panicked
  deriving DecidableEq, Repr

/-- The loop `for _, o := range os` of `Run` (lines 75 to 80), from index `i` on: the state
left, the error that ended the loop if any, and the options called. -/
def applyOptions {α : Type} : List (OptionFn α) → Nat → State α →
    State α × Option Error × List (Event α)
  | [], _, s => (s, none, [])
  | o :: os, i, s =>
    match o s with
    | (s1, some err) => (s1, some err, [.option i])
    | (s1, none) =>
      match applyOptions os (i + 1) s1 with
      | (s2, err, tr) => (s2, err, .option i :: tr)

/-- The expression `ceb.childCmd.Process` of line 118: the process to kill, or `none` when
`childCmd` or its `Process` is `nil`, where the expression or the call of `Kill` on it
dereferences a nil pointer. -/
def childProcess {α : Type} (c : CEB α) : Option Nat :=
  match c.childCmd with
  | none => none
  | some cmd => cmd.Process

/-- The end of `Run` (lines 110 to 122): starts the child and waits for its completion or for
the cancellation of the context.  The result is the state at the return, the outcome, and the
events so far, `tr` being those before the child is started.  The state left by
`execChildCmd` is the one the cancellation case reads `ceb.childCmd.Process` from. -/
def runChild {α : Type} (w : World α) (s : State α) (tr : List (Event α)) :
    State α × Outcome × List (Event α) :=
  let s4 := w.execChildCmd s
  let tr5 := tr ++ [.execChildCmd]
  match w.sel with
  | .errCh err => (s4, .returned err, tr5 ++ [.recvErrCh err])
  | .ctxDone later =>
    let tr6 := tr5 ++ [.ctxDone,
      .log "received cancellation request, gracefully exiting"]
    match childProcess s4.ceb with
    | none => (s4, .panicked, tr6)
    | some _ =>
      let tr7 := tr6 ++ [.kill]
      match later with
      | some e => (s4, .returned none, tr7 ++ [.recvErrCh e])
      | none => (s4, .blocked, tr7)
  | .never => (s4, .blocked, tr5)

/-- The body of `Run` from the option loop to its `return` statements (lines 73 to 122): the
state at the return, the outcome, and the events so far. -/
def runBody {α : Type} (w : World α) (os : List (OptionFn α)) (s0 : State α) :
    State α × Outcome × List (Event α) :=
  match applyOptions os 0 s0 with
  | (s1, some err, tr1) => (s1, .returned (some err), tr1)
  | (s1, none, tr1) =>
    let tr2 := tr1 ++ [.log "entrypoint starting", .log "entrypoint version"]
    match w.initChildCmd s1 with
    | (s2, some err) =>
      (s2, .returned (some (.status .Aborted "failed to connect to server: %s" err)),
        tr2 ++ [.initChildCmd])
    | (s2, none) =>
      let tr3 := tr2 ++ [.initChildCmd]
      if !s2.cfg.disable then
        match w.init s2 with
        | (s3, some err) => (s3, .returned (some err), tr3 ++ [.init])
        | (s3, none) => runChild w s3 (tr3 ++ [.init])
      else runChild w s2 tr3

/-- The literal `&CEB{id: id, logger: hclog.L(), context: ctx}`: every other field has its
zero value. -/
def newCEB {α : Type} (id : String) : CEB α :=
  { id := id, deploymentId := "", client := none, childCmd := none, execIdx := 0,
    cleanupFunc := .nil }

/-- What an execution of `Run` shows. -/
structure Result (α : Type) where
  outcome : Outcome
  trace : List (Event α)
  deriving DecidableEq, Repr

/-- The function `Run`.  The deferred `ceb.Close()` is registered after the `CEB` is built and
runs when the body returns or panics; its return value is dropped. -/
def Run {α : Type} (w : World α) (os : List (OptionFn α)) : Result α :=
  match w.serverId with
  | .error err =>
    { outcome := .returned (some (.status .Internal "failed to generate unique ID: %s" err))
      trace := [] }
  | .ok id =>
    let ceb : CEB α := newCEB id
    match runBody w os { ceb := ceb, cfg := {}, env := w.env } with
    | (_, .blocked, tr) => { outcome := .blocked, trace := tr }
    | (s, .returned err, tr) =>
      { outcome := .returned err
        trace := tr ++ Event.close :: (s.ceb.Close).1.map Event.action }
    | (s, .panicked, tr) =>
      { outcome := .panicked
        trace := tr ++ Event.close :: (s.ceb.Close).1.map Event.action }

/-! ## Vocabulary of the statements -/

/-- A call made on a `CEB` by its owner. -/
inductive Call (α : Type) where
  | cleanup (f : α)
  | Close
  deriving DecidableEq, Repr

/-- Makes the calls in order on `c`; `ran` collects the actions executed so far. -/
def runCalls {α : Type} : List (Call α) → CEB α → List α → CEB α × List α
  | [], c, ran => (c, ran)
  | .cleanup f :: cs, c, ran => runCalls cs (c.cleanup f) ran
  | .Close :: cs, c, ran => runCalls cs c (ran ++ (c.Close).1)

/-- The state in which `Run` starts its option loop, for the identifier `id`. -/
def startState {α : Type} (w : World α) (id : String) : State α :=
  { ceb := newCEB id, cfg := {}, env := w.env }

/-- The state after calling every option of the list in order, errors disregarded. -/
def stateAfter {α : Type} (os : List (OptionFn α)) (s : State α) : State α :=
  os.foldl (fun s o => (o s).1) s

/-- Every option of the list returns `nil` when the options are called in order from `s`. -/
def OptionsOk {α : Type} : List (OptionFn α) → State α → Prop
  | [], _ => True
  | o :: os, s => (o s).2 = none ∧ OptionsOk os (o s).1

/-- Whether an event is the call of `Close`. -/
def Event.isClose {α : Type} : Event α → Bool
  | .close => true
  | _ => false

/-- The number of `Close` calls in a trace. -/
def closeCount {α : Type} (tr : List (Event α)) : Nat :=
  (tr.filter Event.isClose).length

/-- The state handed to `initChildCmd` when every option succeeded. -/
def optionsState {α : Type} (w : World α) (os : List (OptionFn α)) (id : String) : State α :=
  stateAfter os (startState w id)

/-- The state left by `initChildCmd`. -/
def preparedState {α : Type} (w : World α) (os : List (OptionFn α)) (id : String) : State α :=
  (w.initChildCmd (optionsState w os id)).1

/-- The state in which the child is started: the one left by `init`, or the prepared state
when the disable flag is set. -/
def readyState {α : Type} (w : World α) (os : List (OptionFn α)) (id : String) : State α :=
  if (preparedState w os id).cfg.disable then preparedState w os id
  else (w.init (preparedState w os id)).1

/-- The events of a run with `n` options from the first option to the start of the child,
when nothing fails; `feature` tells whether `init` is called. -/
def startupTrace {α : Type} (n : Nat) (feature : Bool) : List (Event α) :=
  (List.range n).map Event.option
    ++ [.log "entrypoint starting", .log "entrypoint version", .initChildCmd]
    ++ (if feature then [.init] else [])
    ++ [.execChildCmd]

/-- An option that registers the cleanup action `a` and returns `err`. -/
def registering {α : Type} (a : α) (err : Option Error) : State α → State α × Option Error :=
  fun s => ({ s with ceb := s.ceb.cleanup a }, err)

/-- A world for examples: the identifier is `"id"`, the environment is empty, child preparation
registers action 2, feature initialisation registers action 3 and returns `initErr`, and
starting the child leaves `childCmd` with the process 0. -/
def demoWorld (initErr : Option Error) (sel : Select) : World Nat :=
  { serverId := .ok "id"
    env := fun _ => none
    initChildCmd := registering 2 none
    init := registering 3 initErr
    execChildCmd := fun s => { s with ceb := { s.ceb with childCmd := some ⟨some 0⟩ } }
    sel := sel }

/-- A world in which the context is cancelled while `childCmd` is still `nil`. -/
def noChildWorld : World Nat :=
  { demoWorld none (.ctxDone (some none)) with execChildCmd := fun s => s }

/-- A world in which `server.Id()` fails. -/
def noIdWorld : World Nat :=
  { demoWorld none .never with serverId := .error (.ext 0) }

/-- The three public options of the package, as data. -/
inductive PublicOption where
  | envDefaults
  | exec (args : List String)
  | client (c : Option Nat)
  deriving DecidableEq, Repr

/-- The option a `PublicOption` stands for. -/
def PublicOption.fn {α : Type} : PublicOption → OptionFn α
  | .envDefaults => WithEnvDefaults
  | .exec args => WithExec args
  | .client c => WithClient c

/-- Which of the three constructors an option is built with. -/
def PublicOption.kind : PublicOption → Nat
  | .envDefaults => 0
  | .exec _ => 1
  | .client _ => 2

/-- A state for examples: a new `CEB`, the zero `config`, and an environment in which only
`PORT` is set, to `port`. -/
def portState (port : String) : State Nat :=
  { ceb := newCEB "id", cfg := {}, env := fun k => if k = "PORT" then some port else none }

/-- A state for examples: a new `CEB`, the zero `config` and the empty environment. -/
def emptyState : State Nat :=
  { ceb := newCEB "id", cfg := {}, env := fun _ => none }

/-- Whether a byte is a decimal digit. -/
def isDecimalDigit (c : Char) : Prop := '0' ≤ c ∧ c ≤ '9'

/-- The number that a list of decimal digits denotes when read after the number `n`. -/
def decimalValue (cs : List Char) (n : Nat) : Nat :=
  cs.foldl (fun n c => n * 10 + (c.toNat - '0'.toNat)) n

/-- The bytes `s` are a decimal integer denoting `i` that fits the 64-bit `int`: an optional
sign, then one or more decimal digits and nothing else. -/
def DecimalBytes (s : List Char) (i : Int) : Prop :=
  ∃ body : List Char, body ≠ [] ∧ (∀ c ∈ body, isDecimalDigit c) ∧
    ((s = body ∧ i = (decimalValue body 0 : Nat)) ∨
     (s = '+' :: body ∧ i = (decimalValue body 0 : Nat)) ∨
     (s = '-' :: body ∧ i = -(decimalValue body 0 : Nat))) ∧
    -(2 : Int) ^ 63 ≤ i ∧ i < (2 : Int) ^ 63

/-- The string `s` is a valid integer string denoting `i`. -/
def DecimalInt (s : String) (i : Int) : Prop := DecimalBytes s.data i

/-! ## The cleanup chain: lemmas -/

theorem Func.call_closure {α : Type} (g : Func α) (f : α) :
    (Func.closure g f).call = g.call ++ [f] := by
  cases g <;> simp [Func.call, Func.isNil]

theorem Func.call_foldl {α : Type} (fs : List α) (g : Func α) :
    (fs.foldl Func.closure g).call = g.call ++ fs := by
  induction fs generalizing g with
  | nil => simp
  | cons f fs ih => simp [ih, Func.call_closure]

theorem CEB.cleanupFunc_foldl {α : Type} (fs : List α) (c : CEB α) :
    (fs.foldl CEB.cleanup c).cleanupFunc = fs.foldl Func.closure c.cleanupFunc := by
  induction fs generalizing c with
  | nil => rfl
  | cons f fs ih => simp [ih, CEB.cleanup]

theorem CEB.Close_fst {α : Type} (c : CEB α) : (c.Close).1 = c.cleanupFunc.call := by
  unfold CEB.Close
  cases h : c.cleanupFunc <;> simp [Func.isNil, Func.call]

theorem CEB.Close_snd {α : Type} (c : CEB α) : (c.Close).2 = none := rfl

theorem CEB.Close_foldl {α : Type} (fs : List α) (c : CEB α) :
    ((fs.foldl CEB.cleanup c).Close).1 = c.cleanupFunc.call ++ fs := by
  rw [CEB.Close_fst, CEB.cleanupFunc_foldl, Func.call_foldl]

/-- C1. Registering `f1, ..., fn` on a fresh `CEB` (one whose `cleanupFunc` is `nil`) by
successive calls of `cleanup` and then calling `Close` once executes exactly `f1, ..., fn`, in
registration order, and `Close` returns `nil`. -/
theorem close_runs_registered_in_order {α : Type} (c : CEB α) (fs : List α)
    (hfresh : c.cleanupFunc = Func.nil) :
    (fs.foldl CEB.cleanup c).Close = (fs, none) := by
  have h1 := CEB.Close_foldl fs c
  have h2 := CEB.Close_snd (fs.foldl CEB.cleanup c)
  rw [hfresh] at h1
  simp only [Func.call, List.nil_append] at h1
  exact Prod.ext h1 h2

theorem close_runs_registered_in_order_witness :
    (newCEB "id" : CEB Nat).cleanupFunc = Func.nil ∧
    ([1, 2, 3].foldl CEB.cleanup (newCEB "id" : CEB Nat)).Close = ([1, 2, 3], none) :=
  ⟨rfl, close_runs_registered_in_order (newCEB "id") [1, 2, 3] rfl⟩

/-! ## Repeated teardown -/

theorem runCalls_append {α : Type} (cs1 cs2 : List (Call α)) (c : CEB α) (ran : List α) :
    runCalls (cs1 ++ cs2) c ran = runCalls cs2 (runCalls cs1 c ran).1 (runCalls cs1 c ran).2 := by
  induction cs1 generalizing c ran with
  | nil => rfl
  | cons x cs1 ih => cases x <;> simp [runCalls, ih]

theorem runCalls_cleanups {α : Type} (fs : List α) (c : CEB α) (ran : List α) :
    runCalls (fs.map Call.cleanup) c ran = (fs.foldl CEB.cleanup c, ran) := by
  induction fs generalizing c with
  | nil => rfl
  | cons f fs ih => simp [runCalls, ih]

theorem runCalls_closes {α : Type} (k : Nat) (c : CEB α) (ran : List α) :
    runCalls (List.replicate k Call.Close) c ran
      = (c, ran ++ (List.replicate k (c.Close).1).flatten) := by
  induction k generalizing ran with
  | zero => simp [runCalls]
  | succ k ih => simp [List.replicate_succ, runCalls, ih]

/-- C2, as the code has it. `Close` is not one-shot: it executes the whole current chain, in
registration order, every time it is called and leaves the chain as it was.  After
registering `f1, ..., fn` on a fresh `CEB`, `k` calls of `Close` execute the sequence
`f1, ..., fn` `k` times; registrations `g1, ..., gm` made after a `Close` execute nothing
themselves, and the next `Close` executes `f1, ..., fn, g1, ..., gm`. -/
theorem close_runs_chain_on_every_call {α : Type} (c : CEB α) (fs gs : List α) (k : Nat)
    (hfresh : c.cleanupFunc = Func.nil) :
    (runCalls (fs.map Call.cleanup ++ List.replicate k Call.Close) c []).2
        = (List.replicate k fs).flatten ∧
    (runCalls (fs.map Call.cleanup ++ [Call.Close] ++ gs.map Call.cleanup) c []).2 = fs ∧
    (runCalls (fs.map Call.cleanup ++ [Call.Close] ++ gs.map Call.cleanup ++ [Call.Close])
        c []).2 = fs ++ (fs ++ gs) := by
  have hfs : ((fs.foldl CEB.cleanup c).Close).1 = fs := by
    rw [CEB.Close_foldl, hfresh]; rfl
  have hgs : (((fs ++ gs).foldl CEB.cleanup c).Close).1 = fs ++ gs := by
    rw [CEB.Close_foldl, hfresh]; rfl
  refine ⟨?_, ?_, ?_⟩
  · rw [runCalls_append, runCalls_cleanups, runCalls_closes, hfs]; simp
  · rw [runCalls_append, runCalls_append, runCalls_cleanups, runCalls_cleanups]
    simp [runCalls, hfs]
  · rw [runCalls_append, runCalls_append, runCalls_append, runCalls_cleanups,
      runCalls_cleanups]
    rw [List.foldl_append] at hgs
    simp [runCalls, hfs, hgs]

theorem close_runs_chain_on_every_call_witness :
    (newCEB "id" : CEB Nat).cleanupFunc = Func.nil ∧
    (runCalls ([1, 2].map Call.cleanup ++ List.replicate 3 Call.Close)
        (newCEB "id" : CEB Nat) []).2 = (List.replicate 3 [1, 2]).flatten ∧
    (runCalls ([1, 2].map Call.cleanup ++ [Call.Close] ++ [7].map Call.cleanup)
        (newCEB "id" : CEB Nat) []).2 = [1, 2] ∧
    (runCalls ([1, 2].map Call.cleanup ++ [Call.Close] ++ [7].map Call.cleanup ++ [Call.Close])
        (newCEB "id" : CEB Nat) []).2 = [1, 2] ++ ([1, 2] ++ [7]) :=
  ⟨rfl, close_runs_chain_on_every_call (newCEB "id") [1, 2] [7] 3 rfl⟩

/-- C2 fails as stated: after registering one action and calling `Close`, a second `Close`
executes the action again, and a registration made after the first `Close` is executed by the
next `Close` together with the old chain. -/
theorem close_twice_runs_action_twice :
    (runCalls [Call.cleanup 1, Call.Close, Call.Close] (newCEB "id" : CEB Nat) []).2 = [1, 1] ∧
    (runCalls [Call.cleanup 1, Call.Close, Call.Close] (newCEB "id" : CEB Nat) []).2 ≠ [1] ∧
    (runCalls [Call.cleanup 1, Call.Close, Call.cleanup 2, Call.Close]
        (newCEB "id" : CEB Nat) []).2 = [1, 1, 2] := by
  decide

/-! ## The option loop -/

theorem applyOptions_ok {α : Type} (os : List (OptionFn α)) (i : Nat) (s : State α)
    (h : OptionsOk os s) :
    applyOptions os i s = (stateAfter os s, none, (List.range' i os.length).map Event.option) := by
  induction os generalizing i s with
  | nil => rfl
  | cons o os ih =>
    obtain ⟨h1, h2⟩ := h
    have hs : o s = ((o s).1, none) := Prod.ext rfl h1
    rw [applyOptions, hs]
    simp only [ih (i + 1) (o s).1 h2]
    simp [stateAfter, List.range']

theorem applyOptions_fail {α : Type} (pre : List (OptionFn α)) (o : OptionFn α)
    (post : List (OptionFn α)) (i : Nat) (s : State α) (e : Error)
    (hpre : OptionsOk pre s) (hfail : (o (stateAfter pre s)).2 = some e) :
    applyOptions (pre ++ o :: post) i s
      = ((o (stateAfter pre s)).1, some e, (List.range' i (pre.length + 1)).map Event.option) := by
  induction pre generalizing i s with
  | nil =>
    have hs : o s = ((o s).1, some e) := Prod.ext rfl hfail
    simp only [List.nil_append, applyOptions]
    rw [hs]
    simp [stateAfter, List.range']
  | cons p pre ih =>
    obtain ⟨h1, h2⟩ := hpre
    have hs : p s = ((p s).1, none) := Prod.ext rfl h1
    have hfail2 : (o (stateAfter pre (p s).1)).2 = some e := by
      simpa [stateAfter] using hfail
    rw [List.cons_append, applyOptions, hs]
    simp only [ih (i + 1) (p s).1 h2 hfail2]
    simp [stateAfter, List.range']

/-! ## The paths through `Run` -/

theorem Run_of_id {α : Type} (w : World α) (os : List (OptionFn α)) (id : String)
    (hid : w.serverId = .ok id) :
    Run w os =
      match runBody w os (startState w id) with
      | (_, .blocked, tr) => { outcome := .blocked, trace := tr }
      | (s, .returned err, tr) =>
        { outcome := .returned err
          trace := tr ++ Event.close :: (s.ceb.Close).1.map Event.action }
      | (s, .panicked, tr) =>
        { outcome := .panicked
          trace := tr ++ Event.close :: (s.ceb.Close).1.map Event.action } := by
  simp only [Run, hid, startState]

theorem runBody_option_fail {α : Type} (w : World α) (os : List (OptionFn α)) (s0 s1 : State α)
    (e : Error) (tr : List (Event α)) (h : applyOptions os 0 s0 = (s1, some e, tr)) :
    runBody w os s0 = (s1, .returned (some e), tr) := by
  simp only [runBody, h]

theorem runBody_prepare_fail {α : Type} (w : World α) (os : List (OptionFn α)) (s0 : State α)
    (e : Error) (hopts : OptionsOk os s0) (hprep : (w.initChildCmd (stateAfter os s0)).2 = some e) :
    runBody w os s0 =
      ((w.initChildCmd (stateAfter os s0)).1,
        .returned (some (.status .Aborted "failed to connect to server: %s" e)),
        (List.range os.length).map Event.option
          ++ [.log "entrypoint starting", .log "entrypoint version", .initChildCmd]) := by
  have hs : w.initChildCmd (stateAfter os s0) = ((w.initChildCmd (stateAfter os s0)).1, some e) :=
    Prod.ext rfl hprep
  rw [runBody, applyOptions_ok os 0 s0 hopts]
  simp only []
  rw [hs]
  simp [List.range_eq_range']

theorem runBody_init_fail {α : Type} (w : World α) (os : List (OptionFn α)) (s0 : State α)
    (e : Error) (hopts : OptionsOk os s0) (hprep : (w.initChildCmd (stateAfter os s0)).2 = none)
    (hen : (w.initChildCmd (stateAfter os s0)).1.cfg.disable = false)
    (hinit : (w.init (w.initChildCmd (stateAfter os s0)).1).2 = some e) :
    runBody w os s0 =
      ((w.init (w.initChildCmd (stateAfter os s0)).1).1, .returned (some e),
        (List.range os.length).map Event.option
          ++ [.log "entrypoint starting", .log "entrypoint version", .initChildCmd, .init]) := by
  have hs : w.initChildCmd (stateAfter os s0) = ((w.initChildCmd (stateAfter os s0)).1, none) :=
    Prod.ext rfl hprep
  have hi : w.init (w.initChildCmd (stateAfter os s0)).1
      = ((w.init (w.initChildCmd (stateAfter os s0)).1).1, some e) := Prod.ext rfl hinit
  generalize hs2 : (w.initChildCmd (stateAfter os s0)).1 = s2 at hs hi hen
  rw [runBody, applyOptions_ok os 0 s0 hopts]
  simp only []
  rw [hs]
  simp only [hen]
  rw [hi]
  simp [List.range_eq_range']

theorem runBody_ready {α : Type} (w : World α) (os : List (OptionFn α)) (s0 : State α)
    (hopts : OptionsOk os s0) (hprep : (w.initChildCmd (stateAfter os s0)).2 = none)
    (hinit : (w.initChildCmd (stateAfter os s0)).1.cfg.disable = true ∨
      (w.init (w.initChildCmd (stateAfter os s0)).1).2 = none) :
    runBody w os s0 =
      runChild w
        (if (w.initChildCmd (stateAfter os s0)).1.cfg.disable
          then (w.initChildCmd (stateAfter os s0)).1
          else (w.init (w.initChildCmd (stateAfter os s0)).1).1)
        ((List.range os.length).map Event.option
          ++ [.log "entrypoint starting", .log "entrypoint version", .initChildCmd]
          ++ (if !(w.initChildCmd (stateAfter os s0)).1.cfg.disable then [.init] else [])) := by
  have hs : w.initChildCmd (stateAfter os s0) = ((w.initChildCmd (stateAfter os s0)).1, none) :=
    Prod.ext rfl hprep
  generalize hs2 : (w.initChildCmd (stateAfter os s0)).1 = s2 at hs hinit
  rw [runBody, applyOptions_ok os 0 s0 hopts]
  simp only []
  rw [hs]
  simp only []
  cases hd : s2.cfg.disable with
  | true => simp [List.range_eq_range']
  | false =>
    rw [hd] at hinit
    have hi : w.init s2 = ((w.init s2).1, none) := Prod.ext rfl (by simpa using hinit)
    simp only [Bool.not_false, if_true]
    rw [hi]
    simp [List.range_eq_range']

/-! ## Counting teardown passes -/

theorem closeCount_append {α : Type} (a b : List (Event α)) :
    closeCount (a ++ b) = closeCount a + closeCount b := by
  simp [closeCount]

theorem closeCount_nil {α : Type} : closeCount ([] : List (Event α)) = 0 := rfl

theorem closeCount_cons {α : Type} (e : Event α) (tr : List (Event α)) :
    closeCount (e :: tr) = (if e.isClose then 1 else 0) + closeCount tr := by
  cases h : e.isClose <;> simp [closeCount, h, Nat.add_comm]

theorem closeCount_actions {α : Type} (acts : List α) :
    closeCount (acts.map Event.action) = 0 := by
  induction acts with
  | nil => rfl
  | cons a acts ih => simp [closeCount_cons, Event.isClose, ih]

theorem closeCount_applyOptions {α : Type} (os : List (OptionFn α)) (i : Nat) (s : State α) :
    closeCount (applyOptions os i s).2.2 = 0 := by
  induction os generalizing i s with
  | nil => rfl
  | cons o os ih =>
    rw [applyOptions]
    split
    · rfl
    · rename_i s1 h
      have := ih (i + 1) s1
      simp [closeCount_cons, Event.isClose, this]

theorem runChild_errCh {α : Type} (w : World α) (s : State α) (tr : List (Event α))
    (e : Option Error) (hsel : w.sel = .errCh e) :
    runChild w s tr
      = (w.execChildCmd s, .returned e, tr ++ [.execChildCmd, .recvErrCh e]) := by
  simp [runChild, hsel]

theorem runChild_never {α : Type} (w : World α) (s : State α) (tr : List (Event α))
    (hsel : w.sel = .never) :
    runChild w s tr = (w.execChildCmd s, .blocked, tr ++ [.execChildCmd]) := by
  simp [runChild, hsel]

theorem runChild_no_child {α : Type} (w : World α) (s : State α) (tr : List (Event α))
    (later : Option (Option Error)) (hsel : w.sel = .ctxDone later)
    (hp : childProcess (w.execChildCmd s).ceb = none) :
    runChild w s tr
      = (w.execChildCmd s, .panicked,
          tr ++ [.execChildCmd, .ctxDone,
            .log "received cancellation request, gracefully exiting"]) := by
  simp [runChild, hsel, hp]

theorem runChild_cancel {α : Type} (w : World α) (s : State α) (tr : List (Event α))
    (e : Option Error) (p : Nat) (hsel : w.sel = .ctxDone (some e))
    (hp : childProcess (w.execChildCmd s).ceb = some p) :
    runChild w s tr
      = (w.execChildCmd s, .returned none,
          tr ++ [.execChildCmd, .ctxDone,
            .log "received cancellation request, gracefully exiting", .kill,
            .recvErrCh e]) := by
  simp [runChild, hsel, hp]

theorem runChild_cancel_blocked {α : Type} (w : World α) (s : State α) (tr : List (Event α))
    (p : Nat) (hsel : w.sel = .ctxDone none)
    (hp : childProcess (w.execChildCmd s).ceb = some p) :
    runChild w s tr
      = (w.execChildCmd s, .blocked,
          tr ++ [.execChildCmd, .ctxDone,
            .log "received cancellation request, gracefully exiting", .kill]) := by
  simp [runChild, hsel, hp]

/-- The five ways `runChild` can go. -/
theorem runChild_cases {α : Type} (w : World α) (s : State α) (tr : List (Event α)) :
    (∃ e, w.sel = .errCh e ∧ runChild w s tr
      = (w.execChildCmd s, .returned e, tr ++ [.execChildCmd, .recvErrCh e])) ∨
    (w.sel = .never ∧ runChild w s tr = (w.execChildCmd s, .blocked, tr ++ [.execChildCmd])) ∨
    (∃ later, w.sel = .ctxDone later ∧ childProcess (w.execChildCmd s).ceb = none ∧
      runChild w s tr
        = (w.execChildCmd s, .panicked,
            tr ++ [.execChildCmd, .ctxDone,
              .log "received cancellation request, gracefully exiting"])) ∨
    (∃ e, w.sel = .ctxDone (some e) ∧ runChild w s tr
      = (w.execChildCmd s, .returned none,
          tr ++ [.execChildCmd, .ctxDone,
            .log "received cancellation request, gracefully exiting", .kill,
            .recvErrCh e])) ∨
    (w.sel = .ctxDone none ∧ runChild w s tr
      = (w.execChildCmd s, .blocked,
          tr ++ [.execChildCmd, .ctxDone,
            .log "received cancellation request, gracefully exiting", .kill])) := by
  cases hsel : w.sel with
  | errCh e => exact Or.inl ⟨e, rfl, runChild_errCh w s tr e hsel⟩
  | never => exact Or.inr (Or.inl ⟨rfl, runChild_never w s tr hsel⟩)
  | ctxDone later =>
    cases hp : childProcess (w.execChildCmd s).ceb with
    | none =>
      exact Or.inr (Or.inr (Or.inl ⟨later, rfl, rfl, runChild_no_child w s tr later hsel hp⟩))
    | some p =>
      cases later with
      | some e =>
        exact Or.inr (Or.inr (Or.inr (Or.inl ⟨e, rfl, runChild_cancel w s tr e p hsel hp⟩)))
      | none =>
        exact Or.inr (Or.inr (Or.inr (Or.inr ⟨rfl, runChild_cancel_blocked w s tr p hsel hp⟩)))

theorem closeCount_runChild {α : Type} (w : World α) (s : State α) (tr : List (Event α)) :
    closeCount (runChild w s tr).2.2 = closeCount tr := by
  rcases runChild_cases w s tr with ⟨e, _, h⟩ | ⟨_, h⟩ | ⟨l, _, _, h⟩ | ⟨e, _, h⟩ | ⟨_, h⟩ <;>
    rw [h] <;> simp [closeCount_append, closeCount_cons, closeCount_nil, Event.isClose]

theorem blocked_runChild {α : Type} (w : World α) (s : State α) (tr : List (Event α))
    (h : (runChild w s tr).2.1 = .blocked) : w.sel = .never ∨ w.sel = .ctxDone none := by
  rcases runChild_cases w s tr with ⟨e, _, h1⟩ | ⟨hs, _⟩ | ⟨l, _, _, h1⟩ | ⟨e, _, h1⟩ | ⟨hs, _⟩
  · rw [h1] at h; simp at h
  · exact Or.inl hs
  · rw [h1] at h; simp at h
  · rw [h1] at h; simp at h
  · exact Or.inr hs

theorem panicked_runChild {α : Type} (w : World α) (s : State α) (tr : List (Event α))
    (h : (runChild w s tr).2.1 = .panicked) : ∃ later, w.sel = .ctxDone later := by
  rcases runChild_cases w s tr with ⟨e, _, h1⟩ | ⟨_, h1⟩ | ⟨l, hs, _, _⟩ | ⟨e, _, h1⟩ | ⟨_, h1⟩
  · rw [h1] at h; simp at h
  · rw [h1] at h; simp at h
  · exact ⟨l, hs⟩
  · rw [h1] at h; simp at h
  · rw [h1] at h; simp at h

theorem closeCount_runBody {α : Type} (w : World α) (os : List (OptionFn α)) (s0 : State α) :
    closeCount (runBody w os s0).2.2 = 0 := by
  unfold runBody
  split
  · rename_i s1 err tr1 h
    have := closeCount_applyOptions os 0 s0
    rw [h] at this
    exact this
  · rename_i s1 tr1 h
    have h0 := closeCount_applyOptions os 0 s0
    rw [h] at h0
    simp only [] at h0
    split
    · simp [closeCount_append, closeCount_cons, closeCount_nil, Event.isClose, h0]
    · split
      · split
        · simp [closeCount_append, closeCount_cons, closeCount_nil, Event.isClose, h0]
        · rw [closeCount_runChild]; simp [closeCount_append, closeCount_cons, closeCount_nil, Event.isClose, h0]
      · rw [closeCount_runChild]; simp [closeCount_append, closeCount_cons, closeCount_nil, Event.isClose, h0]

theorem blocked_runBody {α : Type} (w : World α) (os : List (OptionFn α)) (s0 : State α)
    (h : (runBody w os s0).2.1 = .blocked) : w.sel = .never ∨ w.sel = .ctxDone none := by
  unfold runBody at h
  split at h
  · simp at h
  · split at h
    · simp at h
    · split at h
      · split at h
        · simp at h
        · exact blocked_runChild _ _ _ h
      · exact blocked_runChild _ _ _ h

theorem panicked_runBody {α : Type} (w : World α) (os : List (OptionFn α)) (s0 : State α)
    (h : (runBody w os s0).2.1 = .panicked) : ∃ later, w.sel = .ctxDone later := by
  unfold runBody at h
  split at h
  · simp at h
  · split at h
    · simp at h
    · split at h
      · split at h
        · simp at h
        · exact panicked_runChild _ _ _ h
      · exact panicked_runChild _ _ _ h

theorem run_after_id {α : Type} (w : World α) (os : List (OptionFn α)) (id : String)
    (hid : w.serverId = .ok id) :
    ((Run w os).outcome = .blocked → w.sel = .never ∨ w.sel = .ctxDone none) ∧
    ((Run w os).outcome = .panicked → ∃ later, w.sel = .ctxDone later) ∧
    closeCount (Run w os).trace
      = (match (Run w os).outcome with
          | .returned _ => 1
          | .panicked => 1
          | .blocked => 0) ∧
    (∀ err, (Run w os).outcome = .returned err →
      ∃ (pre : List (Event α)) (acts : List α),
        (Run w os).trace = pre ++ Event.close :: acts.map Event.action ∧
        closeCount pre = 0) := by
  rw [Run_of_id w os id hid]
  have hc := closeCount_runBody w os (startState w id)
  have hb := blocked_runBody w os (startState w id)
  have hp := panicked_runBody w os (startState w id)
  generalize runBody w os (startState w id) = r at hc hb hp
  obtain ⟨s, out, tr⟩ := r
  cases out with
  | blocked =>
    refine ⟨fun _ => hb rfl, ?_, ?_, ?_⟩
    · intro h; simp at h
    · simpa using hc
    · intro err h; simp at h
  | panicked =>
    refine ⟨?_, fun _ => hp rfl, ?_, ?_⟩
    · intro h; simp at h
    · simp only [] at hc
      simp [closeCount_append, closeCount_cons, Event.isClose, hc, closeCount_actions]
    · intro err h; simp at h
  | returned e =>
    refine ⟨?_, ?_, ?_, ?_⟩
    · intro h; simp at h
    · intro h; simp at h
    · simp only [] at hc
      simp [closeCount_append, closeCount_cons, Event.isClose, hc, closeCount_actions]
    · intro err _
      exact ⟨tr, (s.ceb.Close).1, rfl, hc⟩

/-- C3, as the code has it. When `server.Id()` succeeds, `Run` returns unless the `select` or
the receive after the kill blocks forever, or the cancellation case finds no child process
and panics; a run that returns has performed exactly one call of `CEB.Close`, as its last
step: the trace is events without a `Close`, then the one `Close`, then the cleanup actions
that call executes (a blocked run has made no `Close` call, a panicking one exactly one).
When `server.Id()` fails with `err`, `Run` returns the Internal error wrapping `err` without
any other step: no `CEB` exists and no `Close` is called. -/
theorem run_closes_once_after_id {α : Type} (w : World α) (os : List (OptionFn α)) :
    (∀ id, w.serverId = .ok id →
      ((Run w os).outcome = .blocked → w.sel = .never ∨ w.sel = .ctxDone none) ∧
      ((Run w os).outcome = .panicked → ∃ later, w.sel = .ctxDone later) ∧
      closeCount (Run w os).trace
        = (match (Run w os).outcome with
            | .returned _ => 1
            | .panicked => 1
            | .blocked => 0) ∧
      (∀ err, (Run w os).outcome = .returned err →
        ∃ (pre : List (Event α)) (acts : List α),
          (Run w os).trace = pre ++ Event.close :: acts.map Event.action ∧
          closeCount pre = 0)) ∧
    (∀ err, w.serverId = .error err →
      Run w os =
        { outcome := .returned (some (.status .Internal "failed to generate unique ID: %s" err))
          trace := [] } ∧
      closeCount (Run w os).trace = 0) := by
  constructor
  · intro id hid
    exact run_after_id w os id hid
  · intro err herr
    have hrun : Run w os =
        { outcome := .returned (some (.status .Internal "failed to generate unique ID: %s" err))
          trace := [] } := by
      simp only [Run, herr]
    rw [hrun]
    exact ⟨rfl, rfl⟩

theorem run_closes_once_after_id_witness :
    (demoWorld none (.errCh none)).serverId = .ok "id" ∧
    (Run (demoWorld none (.errCh none)) [registering 1 none]).outcome = .returned none ∧
    closeCount (Run (demoWorld none (.errCh none)) [registering 1 none]).trace = 1 :=
  ⟨rfl, rfl,
    ((run_closes_once_after_id (demoWorld none (.errCh none)) [registering 1 none]).1
      "id" rfl).2.2.1⟩

/-- C3 fails as stated: when `server.Id()` fails, `Run` returns the Internal error before the
`CEB` exists and before `Close` is deferred, so no teardown pass is performed. -/
theorem run_without_id_never_closes :
    Run noIdWorld [registering 1 none]
      = { outcome := .returned
            (some (.status .Internal "failed to generate unique ID: %s" (.ext 0)))
          trace := [] } ∧
    closeCount (Run noIdWorld [registering 1 none]).trace = 0 ∧
    closeCount (Run noIdWorld [registering 1 none]).trace ≠ 1 := by
  decide

/-! ## Cancellation, child completion and feature initialisation -/

theorem runBody_ready_states {α : Type} (w : World α) (os : List (OptionFn α)) (id : String)
    (hopts : OptionsOk os (startState w id))
    (hprep : (w.initChildCmd (optionsState w os id)).2 = none)
    (hinit : (preparedState w os id).cfg.disable = true ∨
      (w.init (preparedState w os id)).2 = none) :
    runBody w os (startState w id) =
      runChild w (readyState w os id)
        ((List.range os.length).map Event.option
          ++ [.log "entrypoint starting", .log "entrypoint version", .initChildCmd]
          ++ (if !(preparedState w os id).cfg.disable then [.init] else [])) :=
  runBody_ready w os (startState w id) hopts hprep hinit

/-- Without a child process the cancellation case does not reach the kill: when
`ceb.childCmd` or its `Process` is `nil` after `execChildCmd`, `Run` logs the cancellation,
panics at `ceb.childCmd.Process.Kill()`, runs the deferred `Close` and does not return. -/
theorem cancel_without_child_panics {α : Type} (w : World α) (os : List (OptionFn α))
    (id : String) (later : Option (Option Error))
    (hid : w.serverId = .ok id)
    (hopts : OptionsOk os (startState w id))
    (hprep : (w.initChildCmd (optionsState w os id)).2 = none)
    (hinit : (preparedState w os id).cfg.disable = true ∨
      (w.init (preparedState w os id)).2 = none)
    (hchild : childProcess (w.execChildCmd (readyState w os id)).ceb = none)
    (hsel : w.sel = .ctxDone later) :
    Run w os =
      { outcome := .panicked
        trace := startupTrace os.length (!(preparedState w os id).cfg.disable)
          ++ [.ctxDone, .log "received cancellation request, gracefully exiting", .close]
          ++ ((w.execChildCmd (readyState w os id)).ceb.Close).1.map Event.action } := by
  rw [Run_of_id w os id hid, runBody_ready_states w os id hopts hprep hinit,
    runChild_no_child w _ _ later hsel hchild]
  simp [startupTrace]

theorem cancel_without_child_panics_example :
    Run noChildWorld [registering 1 none]
      = { outcome := .panicked
          trace := [.option 0, .log "entrypoint starting", .log "entrypoint version",
            .initChildCmd, .init, .execChildCmd, .ctxDone,
            .log "received cancellation request, gracefully exiting", .close,
            .action 1, .action 2, .action 3] } :=
  cancel_without_child_panics noChildWorld [registering 1 none] "id" (some none) rfl
    ⟨rfl, trivial⟩ rfl (Or.inr rfl) rfl rfl

/-- C5. When `server.Id()`, every option, child preparation and feature initialisation (if
enabled) succeed and the `select` receives `e` from `errCh`, `Run` returns exactly `e` (`nil`
or the error of the child, unwrapped), and no kill signal is sent: the trace is the startup
events, the receive, the deferred `Close` and its cleanup actions. -/
theorem child_first_returns_child_result {α : Type} (w : World α) (os : List (OptionFn α))
    (id : String) (e : Option Error)
    (hid : w.serverId = .ok id)
    (hopts : OptionsOk os (startState w id))
    (hprep : (w.initChildCmd (optionsState w os id)).2 = none)
    (hinit : (preparedState w os id).cfg.disable = true ∨
      (w.init (preparedState w os id)).2 = none)
    (hsel : w.sel = .errCh e) :
    Run w os =
      { outcome := .returned e
        trace := startupTrace os.length (!(preparedState w os id).cfg.disable)
          ++ [.recvErrCh e, .close]
          ++ ((w.execChildCmd (readyState w os id)).ceb.Close).1.map Event.action } ∧
    Event.kill ∉ (Run w os).trace := by
  have hrun : Run w os =
      { outcome := .returned e
        trace := startupTrace os.length (!(preparedState w os id).cfg.disable)
          ++ [.recvErrCh e, .close]
          ++ ((w.execChildCmd (readyState w os id)).ceb.Close).1.map Event.action } := by
    rw [Run_of_id w os id hid, runBody_ready_states w os id hopts hprep hinit]
    simp [runChild, hsel, startupTrace]
  refine ⟨hrun, ?_⟩
  rw [hrun]
  cases hd : (preparedState w os id).cfg.disable <;> simp [startupTrace]

theorem child_first_returns_child_result_witness :
    Run (demoWorld none (.errCh (some (.ext 5)))) [registering 1 none, WithExec ["a"]]
      = { outcome := .returned (some (.ext 5))
          trace := [.option 0, .option 1, .log "entrypoint starting",
            .log "entrypoint version", .initChildCmd, .init, .execChildCmd,
            .recvErrCh (some (.ext 5)), .close, .action 1, .action 2, .action 3] } :=
  (child_first_returns_child_result (demoWorld none (.errCh (some (.ext 5))))
    [registering 1 none, WithExec ["a"]] "id" (some (.ext 5)) rfl
    ⟨rfl, rfl, trivial⟩ rfl (Or.inr rfl) rfl).1

/-- C6. When `server.Id()`, every option and child preparation succeed, the disable flag is
false and `ceb.init` returns the error `e`, `Run` returns `e`; the child is never started and
no kill signal is sent; and if `f1, ..., fn` are the cleanup actions registered so far (the
chain of the `CEB` is the one built by registering them in this order), the deferred `Close`
executes exactly `f1, ..., fn`, in this order, as the last events of the run. -/
theorem init_failure_skips_child {α : Type} (w : World α) (os : List (OptionFn α))
    (id : String) (e : Error) (fs : List α)
    (hid : w.serverId = .ok id)
    (hopts : OptionsOk os (startState w id))
    (hprep : (w.initChildCmd (optionsState w os id)).2 = none)
    (hen : (preparedState w os id).cfg.disable = false)
    (hinit : (w.init (preparedState w os id)).2 = some e)
    (hfs : (w.init (preparedState w os id)).1.ceb.cleanupFunc
      = (fs.foldl CEB.cleanup (newCEB id)).cleanupFunc) :
    Run w os =
      { outcome := .returned (some e)
        trace := (List.range os.length).map Event.option
          ++ [.log "entrypoint starting", .log "entrypoint version", .initChildCmd, .init,
              .close]
          ++ fs.map Event.action } ∧
    Event.execChildCmd ∉ (Run w os).trace ∧ Event.kill ∉ (Run w os).trace := by
  have hclose : ((w.init (preparedState w os id)).1.ceb.Close).1 = fs := by
    rw [CEB.Close_fst, hfs, ← CEB.Close_fst, CEB.Close_foldl]
    rfl
  have hrun : Run w os =
      { outcome := .returned (some e)
        trace := (List.range os.length).map Event.option
          ++ [.log "entrypoint starting", .log "entrypoint version", .initChildCmd, .init,
              .close]
          ++ fs.map Event.action } := by
    rw [Run_of_id w os id hid,
      runBody_init_fail w os (startState w id) e hopts hprep hen hinit]
    simp only []
    have hc : (((w.init (w.initChildCmd (stateAfter os (startState w id))).1).1).ceb.Close).1
        = fs := hclose
    rw [hc]
    simp
  refine ⟨hrun, ?_⟩
  rw [hrun]
  simp

theorem init_failure_skips_child_witness :
    Run (demoWorld (some (.ext 9)) (.errCh none)) [registering 1 none, WithExec ["a"]]
      = { outcome := .returned (some (.ext 9))
          trace := [.option 0, .option 1, .log "entrypoint starting",
            .log "entrypoint version", .initChildCmd, .init, .close,
            .action 1, .action 2, .action 3] } :=
  (init_failure_skips_child (demoWorld (some (.ext 9)) (.errCh none))
    [registering 1 none, WithExec ["a"]] "id" (.ext 9) [1, 2, 3] rfl
    ⟨rfl, rfl, trivial⟩ rfl rfl rfl rfl).1

/-! ## Options in `Run` -/

theorem runChild_trace {α : Type} (w : World α) (s : State α) (tr : List (Event α)) :
    ∃ suf : List (Event α), (runChild w s tr).2.2 = tr ++ suf ∧ ∀ i, Event.option i ∉ suf := by
  rcases runChild_cases w s tr with ⟨e, _, h⟩ | ⟨_, h⟩ | ⟨l, _, _, h⟩ | ⟨e, _, h⟩ | ⟨_, h⟩ <;>
    rw [h] <;> exact ⟨_, rfl, by simp⟩

theorem Run_trace_of_runChild {α : Type} (w : World α) (s : State α) (tr : List (Event α)) :
    ∃ rest : List (Event α),
      (match runChild w s tr with
        | (_, .blocked, tr1) => ({ outcome := .blocked, trace := tr1 } : Result α)
        | (s1, .returned err, tr1) =>
          { outcome := .returned err
            trace := tr1 ++ Event.close :: (s1.ceb.Close).1.map Event.action }
        | (s1, .panicked, tr1) =>
          { outcome := .panicked
            trace := tr1 ++ Event.close :: (s1.ceb.Close).1.map Event.action }).trace
        = tr ++ rest ∧
      ∀ i, Event.option i ∉ rest := by
  obtain ⟨suf, hsuf, hno⟩ := runChild_trace w s tr
  generalize runChild w s tr = r at hsuf
  obtain ⟨s1, out, tr1⟩ := r
  simp only [] at hsuf
  subst hsuf
  cases out with
  | blocked => exact ⟨suf, rfl, hno⟩
  | returned err =>
    refine ⟨suf ++ Event.close :: (s1.ceb.Close).1.map Event.action, by simp, ?_⟩
    intro i
    simp [hno i]
  | panicked =>
    refine ⟨suf ++ Event.close :: (s1.ceb.Close).1.map Event.action, by simp, ?_⟩
    intro i
    simp [hno i]

/-- C7. With `server.Id()` succeeding, `Run` calls the options in list order, each on the
state left by the one before.  If the option at index `k` is the first to return an error
`e`, `Run` returns exactly `e` and its trace is the calls of the options `0, ..., k`, the
deferred `Close` and the cleanup actions registered so far: no later option is called, and
neither `initChildCmd`, `init` nor `execChildCmd` is.  If no option fails, the trace starts
with the calls of the options `0, ..., n - 1`, each once, followed by the two log lines and
the call of `initChildCmd`, and no option is called after that. -/
theorem options_applied_in_order {α : Type} (w : World α) (os : List (OptionFn α))
    (id : String) (hid : w.serverId = .ok id) :
    (∀ (k : Nat) (hk : k < os.length) (e : Error),
      OptionsOk (os.take k) (startState w id) →
      (os[k] (stateAfter (os.take k) (startState w id))).2 = some e →
      Run w os =
        { outcome := .returned (some e)
          trace := (List.range (k + 1)).map Event.option
            ++ Event.close ::
              ((os[k] (stateAfter (os.take k) (startState w id))).1.ceb.Close).1.map
                Event.action }) ∧
    (OptionsOk os (startState w id) →
      ∃ rest : List (Event α),
        (Run w os).trace = (List.range os.length).map Event.option
          ++ [.log "entrypoint starting", .log "entrypoint version", .initChildCmd] ++ rest ∧
        ∀ i, Event.option i ∉ rest) := by
  constructor
  · intro k hk e hpre hfail
    have hsplit : os.take k ++ os[k] :: os.drop (k + 1) = os := by
      rw [← List.drop_eq_getElem_cons hk, List.take_append_drop]
    have hlen : (os.take k).length = k := by
      rw [List.length_take]; omega
    have happ := applyOptions_fail (os.take k) os[k] (os.drop (k + 1)) 0 (startState w id) e
      hpre hfail
    rw [hsplit, hlen] at happ
    rw [Run_of_id w os id hid, runBody_option_fail w os _ _ e _ happ]
    simp [List.range_eq_range']
  · intro hopts
    rw [Run_of_id w os id hid]
    cases hp : (w.initChildCmd (stateAfter os (startState w id))).2 with
    | some e =>
      rw [runBody_prepare_fail w os (startState w id) e hopts hp]
      exact ⟨_, by simp only [List.append_assoc]; rfl, by simp⟩
    | none =>
      cases hd : (w.initChildCmd (stateAfter os (startState w id))).1.cfg.disable with
      | true =>
        rw [runBody_ready w os (startState w id) hopts hp (Or.inl hd)]
        obtain ⟨rest, hrest, hno⟩ := Run_trace_of_runChild w
          (if (w.initChildCmd (stateAfter os (startState w id))).1.cfg.disable
            then (w.initChildCmd (stateAfter os (startState w id))).1
            else (w.init (w.initChildCmd (stateAfter os (startState w id))).1).1)
          ((List.range os.length).map Event.option
            ++ [.log "entrypoint starting", .log "entrypoint version", .initChildCmd]
            ++ (if !(w.initChildCmd (stateAfter os (startState w id))).1.cfg.disable
                then [.init] else []))
        refine ⟨rest, ?_, hno⟩
        rw [hrest, hd]
        simp
      | false =>
        cases hi : (w.init (w.initChildCmd (stateAfter os (startState w id))).1).2 with
        | some e =>
          rw [runBody_init_fail w os (startState w id) e hopts hp hd hi]
          exact ⟨_, by simp only [List.append_assoc]; rfl, by simp⟩
        | none =>
          rw [runBody_ready w os (startState w id) hopts hp (Or.inr hi)]
          obtain ⟨rest, hrest, hno⟩ := Run_trace_of_runChild w
            (if (w.initChildCmd (stateAfter os (startState w id))).1.cfg.disable
              then (w.initChildCmd (stateAfter os (startState w id))).1
              else (w.init (w.initChildCmd (stateAfter os (startState w id))).1).1)
            ((List.range os.length).map Event.option
              ++ [.log "entrypoint starting", .log "entrypoint version", .initChildCmd]
              ++ (if !(w.initChildCmd (stateAfter os (startState w id))).1.cfg.disable
                  then [.init] else []))
          refine ⟨Event.init :: rest, ?_, ?_⟩
          · rw [hrest, hd]
            simp
          · intro i
            simp [hno i]

theorem options_applied_in_order_witness :
    Run (demoWorld none (.errCh none))
        [registering 1 none, registering 4 (some (.ext 1)), WithExec ["a"]]
      = { outcome := .returned (some (.ext 1))
          trace := [.option 0, .option 1, .close, .action 1, .action 4] } :=
  (options_applied_in_order (demoWorld none (.errCh none))
    [registering 1 none, registering 4 (some (.ext 1)), WithExec ["a"]] "id" rfl).1
    1 (by decide) (.ext 1) ⟨rfl, trivial⟩ rfl

/-! ## What `strconv.Atoi` accepts -/

theorem digit_toNat (c : Char) (h : isDecimalDigit c) : 48 ≤ c.toNat ∧ c.toNat ≤ 57 := by
  obtain ⟨h1, h2⟩ := h
  rw [Char.le_def, UInt32.le_def] at h1 h2
  have e9 : '9'.val.val = 57 := rfl
  have e0 : '0'.val.val = 48 := rfl
  have h1' : (48 : Nat) ≤ c.val.val.val := by
    have := Fin.le_def.mp h1
    simpa [e0] using this
  have h2' : c.val.val.val ≤ 57 := by
    have := Fin.le_def.mp h2
    simpa [e9] using this
  exact ⟨h1', h2'⟩

theorem zero_toNat : '0'.toNat = 48 := rfl

theorem decimalValue_cons (c : Char) (cs : List Char) (n : Nat) :
    decimalValue (c :: cs) n = decimalValue cs (n * 10 + (c.toNat - '0'.toNat)) := rfl

theorem decimalValue_ge (cs : List Char) (n : Nat) : n ≤ decimalValue cs n := by
  induction cs generalizing n with
  | nil => exact Nat.le_refl n
  | cons c cs ih =>
    rw [decimalValue_cons]
    exact Nat.le_trans (by omega) (ih _)

theorem decimalValue_lt (cs : List Char) (n : Nat) (h : ∀ c ∈ cs, isDecimalDigit c) :
    decimalValue cs n < (n + 1) * 10 ^ cs.length := by
  induction cs generalizing n with
  | nil => simp [decimalValue]
  | cons c cs ih =>
    rw [decimalValue_cons]
    have hc := digit_toNat c (h c (List.mem_cons_self _ _))
    have := ih (n * 10 + (c.toNat - '0'.toNat)) (fun d hd => h d (List.mem_cons_of_mem _ hd))
    rw [zero_toNat] at this ⊢
    have hle : (n * 10 + (c.toNat - 48) + 1) ≤ (n + 1) * 10 := by omega
    calc decimalValue cs (n * 10 + (c.toNat - 48))
        < (n * 10 + (c.toNat - 48) + 1) * 10 ^ cs.length := this
      _ ≤ ((n + 1) * 10) * 10 ^ cs.length := Nat.mul_le_mul_right _ hle
      _ = (n + 1) * 10 ^ (c :: cs).length := by
          rw [List.length_cons, Nat.pow_succ]; ring

theorem parseUintLoop_ok_iff (cs : List Char) (n v : Nat) (hn : n < 2 ^ 64) :
    parseUintLoop cs n = .ok v ↔
      (∀ c ∈ cs, isDecimalDigit c) ∧ v = decimalValue cs n ∧ v < 2 ^ 64 := by
  induction cs generalizing n with
  | nil =>
    simp only [parseUintLoop, decimalValue, List.foldl_nil, List.not_mem_nil, false_imp_iff,
      implies_true, true_and, Except.ok.injEq]
    constructor
    · intro h; subst h; exact ⟨rfl, hn⟩
    · intro h; exact h.1.symm
  | cons c cs ih =>
    rw [parseUintLoop, decimalValue_cons]
    by_cases hc : '0' ≤ c ∧ c ≤ '9'
    · have hd := digit_toNat c hc
      rw [if_pos hc, zero_toNat]
      simp only [maxUint64]
      by_cases hcut : n ≥ (2 ^ 64 - 1) / 10 + 1
      · rw [if_pos hcut]
        constructor
        · intro h; cases h
        · rintro ⟨_, hv, hlt⟩
          have := decimalValue_ge cs (n * 10 + (c.toNat - 48))
          omega
      · rw [if_neg hcut]
        by_cases hov : (n * 10 + (c.toNat - 48)) % 2 ^ 64 < n * 10 ∨
            (n * 10 + (c.toNat - 48)) % 2 ^ 64 > 2 ^ 64 - 1
        · simp only [hov, if_true]
          constructor
          · intro h; cases h
          · rintro ⟨_, hv, hlt⟩
            have := decimalValue_ge cs (n * 10 + (c.toNat - 48))
            omega
        · simp only [hov, if_false]
          have hsmall : n * 10 + (c.toNat - 48) < 2 ^ 64 := by omega
          rw [Nat.mod_eq_of_lt hsmall, ih _ hsmall]
          constructor
          · rintro ⟨h1, h2, h3⟩
            refine ⟨?_, h2, h3⟩
            intro d hd
            rcases List.mem_cons.mp hd with rfl | hd
            · exact hc
            · exact h1 d hd
          · rintro ⟨h1, h2, h3⟩
            exact ⟨fun d hd => h1 d (List.mem_cons_of_mem _ hd), h2, h3⟩
    · rw [if_neg hc]
      constructor
      · intro h; cases h
      · rintro ⟨h1, _⟩
        exact absurd (h1 c (List.mem_cons_self _ _)) hc


theorem ParseUint_ok_iff (cs : List Char) (v : Nat) :
    ParseUint cs = .ok v ↔
      cs ≠ [] ∧ (∀ c ∈ cs, isDecimalDigit c) ∧ v = decimalValue cs 0 ∧ v < 2 ^ 64 := by
  unfold ParseUint
  by_cases h : cs = []
  · simp [h]
  · rw [if_neg h, parseUintLoop_ok_iff cs 0 v (by norm_num)]
    simp [h]

theorem plus_not_digit : ¬ isDecimalDigit '+' := by unfold isDecimalDigit; decide
theorem minus_not_digit : ¬ isDecimalDigit '-' := by unfold isDecimalDigit; decide

theorem DecimalBytes_minus (rest : List Char) (i : Int) :
    DecimalBytes ('-' :: rest) i ↔
      rest ≠ [] ∧ (∀ c ∈ rest, isDecimalDigit c) ∧ i = -(decimalValue rest 0 : Nat) ∧
        decimalValue rest 0 ≤ 2 ^ 63 := by
  constructor
  · rintro ⟨body, hne, hd, hcase, hlo, hhi⟩
    rcases hcase with ⟨hs, _⟩ | ⟨hs, _⟩ | ⟨hs, hi⟩
    · exact absurd (hd '-' (by rw [← hs]; exact List.mem_cons_self _ _)) minus_not_digit
    · simp at hs
    · have hb : rest = body := by simpa using hs
      subst hb
      exact ⟨hne, hd, hi, by omega⟩
  · rintro ⟨hne, hd, hi, hr⟩
    exact ⟨rest, hne, hd, Or.inr (Or.inr ⟨rfl, hi⟩), by omega, by omega⟩

theorem DecimalBytes_plus (rest : List Char) (i : Int) :
    DecimalBytes ('+' :: rest) i ↔
      rest ≠ [] ∧ (∀ c ∈ rest, isDecimalDigit c) ∧ i = (decimalValue rest 0 : Nat) ∧
        decimalValue rest 0 < 2 ^ 63 := by
  constructor
  · rintro ⟨body, hne, hd, hcase, hlo, hhi⟩
    rcases hcase with ⟨hs, _⟩ | ⟨hs, hi⟩ | ⟨hs, _⟩
    · exact absurd (hd '+' (by rw [← hs]; exact List.mem_cons_self _ _)) plus_not_digit
    · have hb : rest = body := by simpa using hs
      subst hb
      exact ⟨hne, hd, hi, by omega⟩
    · simp at hs
  · rintro ⟨hne, hd, hi, hr⟩
    exact ⟨rest, hne, hd, Or.inr (Or.inl ⟨rfl, hi⟩), by omega, by omega⟩

theorem DecimalBytes_plain (s : List Char) (i : Int)
    (hs : ∀ rest, s ≠ '+' :: rest ∧ s ≠ '-' :: rest) :
    DecimalBytes s i ↔
      s ≠ [] ∧ (∀ c ∈ s, isDecimalDigit c) ∧ i = (decimalValue s 0 : Nat) ∧
        decimalValue s 0 < 2 ^ 63 := by
  constructor
  · rintro ⟨body, hne, hd, hcase, hlo, hhi⟩
    rcases hcase with ⟨hb, hi⟩ | ⟨hb, _⟩ | ⟨hb, _⟩
    · subst hb
      exact ⟨hne, hd, hi, by omega⟩
    · exact absurd hb (hs body).1
    · exact absurd hb (hs body).2
  · rintro ⟨hne, hd, hi, hr⟩
    exact ⟨s, hne, hd, Or.inl ⟨rfl, hi⟩, by omega, by omega⟩

theorem ParseInt_ok_iff (s : List Char) (i : Int) : ParseInt s = .ok i ↔ DecimalBytes s i := by
  cases s with
  | nil =>
    simp only [ParseInt]
    constructor
    · intro h; cases h
    · rintro ⟨body, hne, _, hcase, _⟩
      rcases hcase with ⟨hb, _⟩ | ⟨hb, _⟩ | ⟨hb, _⟩
      · exact absurd hb.symm hne
      · cases hb
      · cases hb
  | cons c rest =>
    simp only [ParseInt]
    by_cases hm : c = '-'
    · subst hm
      rw [DecimalBytes_minus]
      simp only [or_true, if_true]
      cases hp : ParseUint rest with
      | error k =>
        simp only []
        constructor
        · intro h; cases h
        · rintro ⟨hne, hd, _, hr⟩
          have := (ParseUint_ok_iff rest (decimalValue rest 0)).mpr ⟨hne, hd, rfl, by omega⟩
          rw [hp] at this; cases this
      | ok un =>
        obtain ⟨hne, hd, hv, hlt⟩ := (ParseUint_ok_iff rest un).mp hp
        subst hv
        simp only [not_true_eq_false, false_and, if_false, true_and]
        by_cases hr : decimalValue rest 0 > 2 ^ 63
        · rw [if_pos hr]
          constructor
          · intro h; cases h
          · rintro ⟨_, _, _, hr2⟩; omega
        · rw [if_neg hr]
          simp only [Except.ok.injEq]
          constructor
          · intro h; exact ⟨hne, hd, h.symm, by omega⟩
          · rintro ⟨_, _, hi, _⟩; exact hi.symm
    · by_cases hpl : c = '+'
      · subst hpl
        rw [DecimalBytes_plus]
        simp only [true_or, if_true]
        cases hp : ParseUint rest with
        | error k =>
          simp only []
          constructor
          · intro h; cases h
          · rintro ⟨hne, hd, _, hr⟩
            have := (ParseUint_ok_iff rest (decimalValue rest 0)).mpr ⟨hne, hd, rfl, by omega⟩
            rw [hp] at this; cases this
        | ok un =>
          obtain ⟨hne, hd, hv, hlt⟩ := (ParseUint_ok_iff rest un).mp hp
          subst hv
          simp only [hm, not_false_eq_true, true_and, false_and, if_false]
          by_cases hr : decimalValue rest 0 ≥ 2 ^ 63
          · rw [if_pos hr]
            constructor
            · intro h; cases h
            · rintro ⟨_, _, _, hr2⟩; omega
          · rw [if_neg hr]
            simp only [Except.ok.injEq]
            constructor
            · intro h; exact ⟨hne, hd, h.symm, by omega⟩
            · rintro ⟨_, _, hi, _⟩; exact hi.symm
      · have hs : ∀ r, c :: rest ≠ '+' :: r ∧ c :: rest ≠ '-' :: r := by
          intro r
          constructor
          · intro h; exact hpl (List.cons.inj h).1
          · intro h; exact hm (List.cons.inj h).1
        rw [DecimalBytes_plain _ _ hs]
        simp only [hm, hpl, or_self, if_false]
        cases hp : ParseUint (c :: rest) with
        | error k =>
          simp only []
          constructor
          · intro h; cases h
          · rintro ⟨hne, hd, _, hr⟩
            have := (ParseUint_ok_iff (c :: rest) (decimalValue (c :: rest) 0)).mpr
              ⟨hne, hd, rfl, by omega⟩
            rw [hp] at this; cases this
        | ok un =>
          obtain ⟨hne, hd, hv, hlt⟩ := (ParseUint_ok_iff (c :: rest) un).mp hp
          subst hv
          simp only [not_false_eq_true, true_and, false_and, if_false]
          by_cases hr : decimalValue (c :: rest) 0 ≥ 2 ^ 63
          · rw [if_pos hr]
            constructor
            · intro h; cases h
            · rintro ⟨_, _, _, hr2⟩; omega
          · rw [if_neg hr]
            simp only [Except.ok.injEq]
            constructor
            · intro h; exact ⟨hne, hd, h.symm, by omega⟩
            · rintro ⟨_, _, hi, _⟩; exact hi.symm


theorem foldl_fastStep_error (cs : List Char) (k : NumErrKind) :
    cs.foldl fastStep (.error k) = .error k := by
  induction cs with
  | nil => rfl
  | cons c cs ih => simpa [fastStep] using ih

theorem foldl_fastStep_ok_iff (cs : List Char) (n v : Nat) :
    cs.foldl fastStep (.ok n) = .ok v ↔
      (∀ c ∈ cs, isDecimalDigit c) ∧ v = decimalValue cs n := by
  induction cs generalizing n with
  | nil =>
    simp only [List.foldl_nil, Except.ok.injEq, List.not_mem_nil, false_imp_iff, implies_true,
      true_and, decimalValue]
    exact eq_comm
  | cons c cs ih =>
    rw [List.foldl_cons, decimalValue_cons]
    by_cases hc : '0' ≤ c ∧ c ≤ '9'
    · have : fastStep (.ok n) c = .ok (n * 10 + (c.toNat - '0'.toNat)) := by
        simp only [fastStep, hc, and_self, if_true]
      rw [this, ih]
      constructor
      · rintro ⟨h1, h2⟩
        refine ⟨?_, h2⟩
        intro d hd
        rcases List.mem_cons.mp hd with rfl | hd
        · exact hc
        · exact h1 d hd
      · rintro ⟨h1, h2⟩
        exact ⟨fun d hd => h1 d (List.mem_cons_of_mem _ hd), h2⟩
    · have : fastStep (.ok n) c = .error .ErrSyntax := by
        simp only [fastStep, hc, if_false]
      rw [this, foldl_fastStep_error]
      constructor
      · intro h; cases h
      · rintro ⟨h1, _⟩
        exact absurd (h1 c (List.mem_cons_self _ _)) hc

theorem decimalValue_lt_of_length (body : List Char) (h : ∀ c ∈ body, isDecimalDigit c)
    (hlen : body.length ≤ 18) : decimalValue body 0 < 2 ^ 63 := by
  have h1 := decimalValue_lt body 0 h
  have h2 : 10 ^ body.length ≤ 10 ^ 18 := Nat.pow_le_pow_right (by norm_num) hlen
  have h3 : (10 : Nat) ^ 18 < 2 ^ 63 := by norm_num
  omega

theorem atoiFast_ok_iff (s : List Char) (i : Int) (hlen : s.length ≤ 18) :
    atoiFast s = .ok i ↔ DecimalBytes s i := by
  cases s with
  | nil =>
    simp only [atoiFast]
    constructor
    · intro h; cases h
    · rintro ⟨body, hne, _, hcase, _⟩
      rcases hcase with ⟨hb, _⟩ | ⟨hb, _⟩ | ⟨hb, _⟩
      · exact absurd hb.symm hne
      · cases hb
      · cases hb
  | cons c rest =>
    simp only [atoiFast]
    have hrest : rest.length ≤ 18 := by
      rw [List.length_cons] at hlen; omega
    by_cases hm : c = '-'
    · subst hm
      rw [DecimalBytes_minus]
      simp only [true_or, if_true]
      by_cases hne : rest = []
      · simp [hne]
      · rw [if_neg hne]
        cases hf : rest.foldl fastStep (.ok 0) with
        | error k =>
          simp only []
          constructor
          · intro h; cases h
          · rintro ⟨_, hd, _, _⟩
            have := (foldl_fastStep_ok_iff rest 0 _).mpr ⟨hd, rfl⟩
            rw [hf] at this; cases this
        | ok n =>
          obtain ⟨hd, hv⟩ := (foldl_fastStep_ok_iff rest 0 n).mp hf
          subst hv
          have hr := decimalValue_lt_of_length rest hd hrest
          simp only [Except.ok.injEq]
          constructor
          · intro h; exact ⟨hne, hd, h.symm, by omega⟩
          · rintro ⟨_, _, hi, _⟩; exact hi.symm
    · by_cases hpl : c = '+'
      · subst hpl
        rw [DecimalBytes_plus]
        simp only [or_true, if_true]
        by_cases hne : rest = []
        · simp [hne]
        · rw [if_neg hne]
          cases hf : rest.foldl fastStep (.ok 0) with
          | error k =>
            simp only []
            constructor
            · intro h; cases h
            · rintro ⟨_, hd, _, _⟩
              have := (foldl_fastStep_ok_iff rest 0 _).mpr ⟨hd, rfl⟩
              rw [hf] at this; cases this
          | ok n =>
            obtain ⟨hd, hv⟩ := (foldl_fastStep_ok_iff rest 0 n).mp hf
            subst hv
            have hr := decimalValue_lt_of_length rest hd hrest
            simp only [hm, if_false, Except.ok.injEq]
            constructor
            · intro h; exact ⟨hne, hd, h.symm, by omega⟩
            · rintro ⟨_, _, hi, _⟩; exact hi.symm
      · have hs : ∀ r, c :: rest ≠ '+' :: r ∧ c :: rest ≠ '-' :: r := by
          intro r
          constructor
          · intro h; exact hpl (List.cons.inj h).1
          · intro h; exact hm (List.cons.inj h).1
        rw [DecimalBytes_plain _ _ hs]
        simp only [hm, hpl, or_self, if_false]
        rw [if_neg (List.cons_ne_nil c rest)]
        cases hf : (c :: rest).foldl fastStep (.ok 0) with
        | error k =>
          simp only []
          constructor
          · intro h; cases h
          · rintro ⟨_, hd, _, _⟩
            have := (foldl_fastStep_ok_iff (c :: rest) 0 _).mpr ⟨hd, rfl⟩
            rw [hf] at this; cases this
        | ok n =>
          obtain ⟨hd, hv⟩ := (foldl_fastStep_ok_iff (c :: rest) 0 n).mp hf
          subst hv
          have hr := decimalValue_lt_of_length (c :: rest) hd hlen
          simp only [Except.ok.injEq]
          constructor
          · intro h; exact ⟨List.cons_ne_nil c rest, hd, h.symm, by omega⟩
          · rintro ⟨_, _, hi, _⟩; exact hi.symm

theorem length_le_utf8ByteSize_go (cs : List Char) :
    cs.length ≤ String.utf8ByteSize.go cs := by
  induction cs with
  | nil => exact Nat.le_refl _
  | cons c cs ih =>
    have := Char.utf8Size_pos c
    simp only [String.utf8ByteSize.go, List.length_cons]
    omega

theorem length_le_utf8ByteSize (s : String) : s.data.length ≤ s.utf8ByteSize :=
  length_le_utf8ByteSize_go s.data

/-- The function `strconv.Atoi` accepts exactly the decimal integers of the 64-bit range, with
the value they denote. -/
theorem Atoi_ok_iff (s : String) (i : Int) : Atoi s = .ok i ↔ DecimalInt s i := by
  have hwrap : ∀ r : Except NumErrKind Int,
      ((match r with
        | .ok j => Except.ok j
        | .error k => Except.error (Error.numError "Atoi" s k)) = Except.ok i) ↔ r = .ok i := by
    intro r
    cases r with
    | ok j => simp
    | error k => simp
  unfold Atoi DecimalInt
  simp only []
  rw [hwrap]
  by_cases hfast : 0 < s.utf8ByteSize ∧ s.utf8ByteSize < 19
  · rw [if_pos hfast]
    have := length_le_utf8ByteSize s
    exact atoiFast_ok_iff s.data i (by omega)
  · rw [if_neg hfast]
    exact ParseInt_ok_iff s.data i

theorem Atoi_error_iff (s : String) : (∃ err, Atoi s = .error err) ↔ ¬ ∃ i, DecimalInt s i := by
  constructor
  · rintro ⟨err, herr⟩ ⟨i, hi⟩
    rw [(Atoi_ok_iff s i).mpr hi] at herr
    cases herr
  · intro h
    cases hA : Atoi s with
    | error err => exact ⟨err, rfl⟩
    | ok i => exact absurd ⟨i, (Atoi_ok_iff s i).mp hA⟩ h

theorem Atoi_error_form (s : String) (err : Error) (h : Atoi s = .error err) :
    ∃ k, err = .numError "Atoi" s k := by
  unfold Atoi at h
  simp only [] at h
  split at h
  · cases h
  · rename_i k _
    exact ⟨k, by cases h; rfl⟩

/-! ## `WithEnvDefaults` -/

/-- C8. When `PORT` reads as the empty string, `WithEnvDefaults` succeeds, sets
`cfg.URLServicePort` to 5000, sets `PORT` to `"5000"` in the environment, and leaves every
other environment variable as it was. -/
theorem withEnvDefaults_port_unset {α : Type} (s : State α) (h : Getenv s.env "PORT" = "") :
    (WithEnvDefaults s).2 = none ∧
    (WithEnvDefaults s).1.cfg.URLServicePort = 5000 ∧
    DefaultPort = 5000 ∧
    (WithEnvDefaults s).1.env "PORT" = some "5000" ∧
    Getenv (WithEnvDefaults s).1.env "PORT" = "5000" ∧
    (∀ k, k ≠ "PORT" → (WithEnvDefaults s).1.env k = s.env k) := by
  have hW : WithEnvDefaults s
      = (envAssign s (Setenv s.env "PORT" "5000") DefaultPort, none) := by
    have hitoa : Itoa DefaultPort = "5000" := rfl
    simp only [WithEnvDefaults, h, if_true, hitoa]
  rw [hW]
  refine ⟨rfl, rfl, rfl, ?_, ?_, ?_⟩
  · simp [envAssign, Setenv]
  · simp [envAssign, Setenv, Getenv]
  · intro k hk
    simp [envAssign, Setenv, hk]

theorem withEnvDefaults_port_unset_witness :
    Getenv emptyState.env "PORT" = "" ∧
    (WithEnvDefaults emptyState).2 = none ∧
    (WithEnvDefaults emptyState).1.cfg.URLServicePort = 5000 ∧
    DefaultPort = 5000 ∧
    (WithEnvDefaults emptyState).1.env "PORT" = some "5000" ∧
    Getenv (WithEnvDefaults emptyState).1.env "PORT" = "5000" ∧
    (∀ k, k ≠ "PORT" → (WithEnvDefaults emptyState).1.env k = emptyState.env k) :=
  ⟨rfl, withEnvDefaults_port_unset emptyState rfl⟩

/-- C9. When `PORT` is set to a non-empty string: if the string is not a valid decimal integer
(an optional sign and one or more decimal digits, within the range of `int`),
`WithEnvDefaults` fails with the error `fmt.Errorf("Invalid value of PORT: %s", err)`, `err`
being the `*strconv.NumError` of `Atoi`, and leaves the `CEB`, the `config` and the
environment exactly as they were; if the string is a valid integer denoting `i`,
`WithEnvDefaults` succeeds with `cfg.URLServicePort = i` and the environment as it was. -/
theorem withEnvDefaults_port_set {α : Type} (s : State α) (h : Getenv s.env "PORT" ≠ "") :
    ((¬ ∃ i, DecimalInt (Getenv s.env "PORT") i) →
      ∃ k, WithEnvDefaults s
        = (s, some (.errorf "Invalid value of PORT: %s"
            (.numError "Atoi" (Getenv s.env "PORT") k)))) ∧
    (∀ i, DecimalInt (Getenv s.env "PORT") i →
      (WithEnvDefaults s).2 = none ∧ (WithEnvDefaults s).1.cfg.URLServicePort = i ∧
      (WithEnvDefaults s).1.env = s.env) := by
  constructor
  · intro hbad
    obtain ⟨err, herr⟩ := (Atoi_error_iff _).mpr hbad
    obtain ⟨k, hk⟩ := Atoi_error_form _ err herr
    subst hk
    exact ⟨k, by simp [WithEnvDefaults, h, herr]⟩
  · intro i hi
    have hA := (Atoi_ok_iff _ i).mpr hi
    simp [WithEnvDefaults, h, hA, envAssign]

theorem withEnvDefaults_port_set_witness :
    (∃ k, WithEnvDefaults (portState "abc")
      = (portState "abc",
          some (.errorf "Invalid value of PORT: %s" (.numError "Atoi" "abc" k)))) ∧
    (∃ k, WithEnvDefaults (portState "80a")
      = (portState "80a",
          some (.errorf "Invalid value of PORT: %s" (.numError "Atoi" "80a" k)))) ∧
    (∃ k, WithEnvDefaults (portState " 80")
      = (portState " 80",
          some (.errorf "Invalid value of PORT: %s" (.numError "Atoi" " 80" k)))) ∧
    (WithEnvDefaults (portState "8080")).2 = none ∧
    (WithEnvDefaults (portState "8080")).1.cfg.URLServicePort = 8080 :=
  ⟨(withEnvDefaults_port_set (portState "abc") (by decide)).1
      ((Atoi_error_iff "abc").mp ⟨_, rfl⟩),
   (withEnvDefaults_port_set (portState "80a") (by decide)).1
      ((Atoi_error_iff "80a").mp ⟨_, rfl⟩),
   (withEnvDefaults_port_set (portState " 80") (by decide)).1
      ((Atoi_error_iff " 80").mp ⟨_, rfl⟩),
   ((withEnvDefaults_port_set (portState "8080") (by decide)).2 8080
      ((Atoi_ok_iff "8080" 8080).mp rfl)).1,
   ((withEnvDefaults_port_set (portState "8080") (by decide)).2 8080
      ((Atoi_ok_iff "8080" 8080).mp rfl)).2.1⟩

/-! ## Last write wins -/

theorem OptionsOk_of_applyOptions {α : Type} (os : List (OptionFn α)) (i : Nat) (s : State α)
    (h : (applyOptions os i s).2.1 = none) : OptionsOk os s := by
  induction os generalizing i s with
  | nil => trivial
  | cons o os ih =>
    rw [applyOptions] at h
    split at h
    · simp at h
    · rename_i s1 hs
      have h1 : (o s).2 = none := by rw [hs]
      have h2 : (o s).1 = s1 := by rw [hs]
      refine ⟨h1, ?_⟩
      rw [h2]
      exact ih (i + 1) s1 h

theorem stateAfter_append {α : Type} (os1 os2 : List (OptionFn α)) (s : State α) :
    stateAfter (os1 ++ os2) s = stateAfter os2 (stateAfter os1 s) := by
  simp [stateAfter]

theorem stateAfter_cons {α : Type} (o : OptionFn α) (os : List (OptionFn α)) (s : State α) :
    stateAfter (o :: os) s = stateAfter os (o s).1 := rfl

theorem OptionsOk_append {α : Type} (os1 os2 : List (OptionFn α)) (s : State α) :
    OptionsOk (os1 ++ os2) s ↔ OptionsOk os1 s ∧ OptionsOk os2 (stateAfter os1 s) := by
  induction os1 generalizing s with
  | nil => simp [OptionsOk, stateAfter]
  | cons o os1 ih => simp [OptionsOk, ih, stateAfter_cons, and_assoc]

theorem WithEnvDefaults_cases {α : Type} (t : State α) :
    (∃ env port, WithEnvDefaults t = (envAssign t env port, none)) ∨
    (∃ e, WithEnvDefaults t = (t, some e)) := by
  unfold WithEnvDefaults
  by_cases h : Getenv t.env "PORT" = ""
  · exact Or.inl ⟨Setenv t.env "PORT" (Itoa DefaultPort), DefaultPort,
      by simp only [h, if_true]⟩
  · cases hA : Atoi (Getenv t.env "PORT") with
    | error err =>
      exact Or.inr ⟨.errorf "Invalid value of PORT: %s" err, by simp only [h, if_false, hA]⟩
    | ok i => exact Or.inl ⟨t.env, i, by simp only [h, if_false, hA]⟩

theorem fn_keeps_ExecArgs {α : Type} (p : PublicOption) (t : State α) (h : p.kind ≠ 1) :
    ((p.fn t).1 : State α).cfg.ExecArgs = t.cfg.ExecArgs := by
  cases p with
  | envDefaults =>
    rcases WithEnvDefaults_cases t with ⟨env, port, hw⟩ | ⟨e, hw⟩
    · simp only [PublicOption.fn, hw]; rfl
    · simp only [PublicOption.fn, hw]
  | exec a => simp [PublicOption.kind] at h
  | client c => rfl

theorem fn_keeps_client {α : Type} (p : PublicOption) (t : State α) (h : p.kind ≠ 2) :
    ((p.fn t).1 : State α).ceb.client = t.ceb.client := by
  cases p with
  | envDefaults =>
    rcases WithEnvDefaults_cases t with ⟨env, port, hw⟩ | ⟨e, hw⟩
    · simp only [PublicOption.fn, hw]; rfl
    · simp only [PublicOption.fn, hw]
  | exec a => rfl
  | client c => simp [PublicOption.kind] at h

theorem stateAfter_keeps_ExecArgs {α : Type} (post : List PublicOption) (t : State α)
    (h : ∀ a, PublicOption.exec a ∉ post) :
    (stateAfter (post.map PublicOption.fn) t).cfg.ExecArgs = t.cfg.ExecArgs := by
  induction post generalizing t with
  | nil => rfl
  | cons p post ih =>
    have hp : p.kind ≠ 1 := by
      cases p with
      | exec a => exact absurd (List.mem_cons_self _ _) (h a)
      | envDefaults => simp [PublicOption.kind]
      | client c => simp [PublicOption.kind]
    rw [List.map_cons, stateAfter_cons, ih _ (fun a ha => h a (List.mem_cons_of_mem _ ha)),
      fn_keeps_ExecArgs p t hp]

theorem stateAfter_keeps_client {α : Type} (post : List PublicOption) (t : State α)
    (h : ∀ c, PublicOption.client c ∉ post) :
    (stateAfter (post.map PublicOption.fn) t).ceb.client = t.ceb.client := by
  induction post generalizing t with
  | nil => rfl
  | cons p post ih =>
    have hp : p.kind ≠ 2 := by
      cases p with
      | client c => exact absurd (List.mem_cons_self _ _) (h c)
      | envDefaults => simp [PublicOption.kind]
      | exec a => simp [PublicOption.kind]
    rw [List.map_cons, stateAfter_cons, ih _ (fun c hc => h c (List.mem_cons_of_mem _ hc)),
      fn_keeps_client p t hp]

theorem stateAfter_keeps_env_fields {α : Type} (post : List PublicOption) (t : State α)
    (h : PublicOption.envDefaults ∉ post) :
    (stateAfter (post.map PublicOption.fn) t).cfg
        = { t.cfg with ExecArgs := (stateAfter (post.map PublicOption.fn) t).cfg.ExecArgs } ∧
    (stateAfter (post.map PublicOption.fn) t).ceb.deploymentId = t.ceb.deploymentId ∧
    (stateAfter (post.map PublicOption.fn) t).env = t.env := by
  induction post generalizing t with
  | nil => exact ⟨rfl, rfl, rfl⟩
  | cons p post ih =>
    have hpost : PublicOption.envDefaults ∉ post := fun hm => h (List.mem_cons_of_mem _ hm)
    rw [List.map_cons, stateAfter_cons]
    obtain ⟨h1, h2, h3⟩ := ih (p.fn t).1 hpost
    cases p with
    | envDefaults => exact absurd (List.mem_cons_self _ _) h
    | exec a => exact ⟨by rw [h1]; rfl, by rw [h2]; rfl, by rw [h3]; rfl⟩
    | client c => exact ⟨by rw [h1]; rfl, by rw [h2]; rfl, by rw [h3]; rfl⟩

theorem WithEnvDefaults_WithExec {α : Type} (a : List String) (t : State α) :
    WithEnvDefaults (WithExec a t).1
      = ((WithExec a (WithEnvDefaults t).1).1, (WithEnvDefaults t).2) := by
  simp only [WithEnvDefaults, WithExec]
  split
  · rfl
  · split <;> rfl

theorem WithEnvDefaults_WithClient {α : Type} (c : Option Nat) (t : State α) :
    WithEnvDefaults (WithClient c t).1
      = ((WithClient c (WithEnvDefaults t).1).1, (WithEnvDefaults t).2) := by
  simp only [WithEnvDefaults, WithClient]
  split
  · rfl
  · split <;> rfl

theorem fn_swap {α : Type} (p q : PublicOption) (t : State α) (h : p.kind ≠ q.kind) :
    ((q.fn (p.fn t).1).1 : State α) = (p.fn (q.fn t).1).1 ∧
    (p.fn (q.fn t).1).2 = (p.fn t).2 ∧
    (q.fn (p.fn t).1).2 = (q.fn t).2 := by
  cases p <;> cases q <;> simp only [PublicOption.kind, ne_eq, not_true_eq_false] at h <;>
    refine ⟨?_, ?_, ?_⟩ <;>
    first
    | rfl
    | simp only [PublicOption.fn, WithEnvDefaults_WithExec, WithEnvDefaults_WithClient]

theorem OptionsOk_swap {α : Type} (p q : PublicOption) (post : List PublicOption)
    (t : State α) (h : p.kind ≠ q.kind)
    (hok : OptionsOk ((p :: q :: post).map PublicOption.fn) t) :
    OptionsOk ((q :: p :: post).map PublicOption.fn) t ∧
    stateAfter ((q :: p :: post).map PublicOption.fn) t
      = stateAfter ((p :: q :: post).map PublicOption.fn) t := by
  obtain ⟨h1, h2, h3⟩ := fn_swap p q t h
  obtain ⟨hp, hq, hpost⟩ := hok
  simp only [List.map_cons, stateAfter_cons, OptionsOk]
  rw [h3] at hq
  refine ⟨⟨hq, ?_, ?_⟩, ?_⟩
  · rw [h2]; exact hp
  · rw [← h1]; exact hpost
  · rw [← h1]

theorem applyOptions_swap {α : Type} (pre : List PublicOption) (p q : PublicOption)
    (post : List PublicOption) (s : State α) (h : p.kind ≠ q.kind)
    (hok : OptionsOk ((pre ++ p :: q :: post).map PublicOption.fn) s) :
    applyOptions ((pre ++ q :: p :: post).map PublicOption.fn) 0 s
      = applyOptions ((pre ++ p :: q :: post).map PublicOption.fn) 0 s := by
  rw [List.map_append, OptionsOk_append] at hok
  obtain ⟨hpre, hrest⟩ := hok
  obtain ⟨hok2, hst⟩ := OptionsOk_swap p q post _ h hrest
  have hok1 : OptionsOk ((pre ++ p :: q :: post).map PublicOption.fn) s := by
    rw [List.map_append, OptionsOk_append]; exact ⟨hpre, hrest⟩
  have hok3 : OptionsOk ((pre ++ q :: p :: post).map PublicOption.fn) s := by
    rw [List.map_append, OptionsOk_append]; exact ⟨hpre, hok2⟩
  rw [applyOptions_ok _ 0 s hok1, applyOptions_ok _ 0 s hok3]
  have hs : stateAfter ((pre ++ q :: p :: post).map PublicOption.fn) s
      = stateAfter ((pre ++ p :: q :: post).map PublicOption.fn) s := by
    rw [List.map_append, List.map_append, stateAfter_append, stateAfter_append, hst]
  rw [hs]
  simp

/-- C10, as the code has it. For a sequence of the public options `WithEnvDefaults`,
`WithExec(args)` and `WithClient(c)` that the option loop of `Run` applies without a failure
(`WithEnvDefaults` fails when `PORT` is set to something `strconv.Atoi` rejects, and the loop
stops there): `ExecArgs` ends as the argument of the last `WithExec`, `client` as the argument
of the last `WithClient`, and the fields written by `WithEnvDefaults` (the other fields of the
config, the deployment id, the environment) end as its last application wrote them; and
swapping two adjacent options of different kinds gives the same result of the loop: the same
final `CEB`, config and environment, and again no failure. -/
theorem public_options_last_write_wins {α : Type} (ps : List PublicOption) (s : State α)
    (hok : (applyOptions (ps.map PublicOption.fn) 0 s).2.1 = none) :
    (∀ pre args post, ps = pre ++ PublicOption.exec args :: post →
      (∀ a, PublicOption.exec a ∉ post) →
      (applyOptions (ps.map PublicOption.fn) 0 s).1.cfg.ExecArgs = args) ∧
    (∀ pre c post, ps = pre ++ PublicOption.client c :: post →
      (∀ c1, PublicOption.client c1 ∉ post) →
      (applyOptions (ps.map PublicOption.fn) 0 s).1.ceb.client = c) ∧
    (∀ pre post, ps = pre ++ PublicOption.envDefaults :: post →
      PublicOption.envDefaults ∉ post →
      (applyOptions (ps.map PublicOption.fn) 0 s).1.cfg
        = { (WithEnvDefaults (stateAfter (pre.map PublicOption.fn) s)).1.cfg with
            ExecArgs := (applyOptions (ps.map PublicOption.fn) 0 s).1.cfg.ExecArgs } ∧
      (applyOptions (ps.map PublicOption.fn) 0 s).1.ceb.deploymentId
        = (WithEnvDefaults (stateAfter (pre.map PublicOption.fn) s)).1.ceb.deploymentId ∧
      (applyOptions (ps.map PublicOption.fn) 0 s).1.env
        = (WithEnvDefaults (stateAfter (pre.map PublicOption.fn) s)).1.env) ∧
    (∀ pre p q post, ps = pre ++ p :: q :: post → p.kind ≠ q.kind →
      applyOptions ((pre ++ q :: p :: post).map PublicOption.fn) 0 s
        = applyOptions (ps.map PublicOption.fn) 0 s) := by
  have hall := OptionsOk_of_applyOptions _ 0 s hok
  have hfin : (applyOptions (ps.map PublicOption.fn) 0 s).1
      = stateAfter (ps.map PublicOption.fn) s := by
    rw [applyOptions_ok _ 0 s hall]
  rw [hfin]
  refine ⟨?_, ?_, ?_, ?_⟩
  · intro pre args post hps hpost
    subst hps
    rw [List.map_append, stateAfter_append, List.map_cons, stateAfter_cons,
      stateAfter_keeps_ExecArgs post _ hpost]
    rfl
  · intro pre c post hps hpost
    subst hps
    rw [List.map_append, stateAfter_append, List.map_cons, stateAfter_cons,
      stateAfter_keeps_client post _ hpost]
    rfl
  · intro pre post hps hpost
    subst hps
    rw [List.map_append, stateAfter_append, List.map_cons, stateAfter_cons]
    exact stateAfter_keeps_env_fields post _ hpost
  · intro pre p q post hps hkind
    subst hps
    exact applyOptions_swap pre p q post s hkind hall

theorem public_options_last_write_wins_witness :
    (applyOptions ([PublicOption.exec ["a"], .envDefaults, .client (some 1), .exec ["b"],
        .client (some 2)].map PublicOption.fn) 0 emptyState).1.cfg.ExecArgs = ["b"] :=
  (public_options_last_write_wins
    [PublicOption.exec ["a"], .envDefaults, .client (some 1), .exec ["b"], .client (some 2)]
    emptyState rfl).1 [.exec ["a"], .envDefaults, .client (some 1)] ["b"] [.client (some 2)]
    rfl (by simp)

/-- C10 fails as stated: with `PORT` set to `"abc"`, `WithEnvDefaults` fails and the loop
stops, so `WithExec(a)` followed later by `WithExec(b)` leaves `ExecArgs = a` when the failing
option stands between them, and swapping the adjacent `WithExec(a)` and `WithEnvDefaults`
changes the final config. -/
theorem failed_option_breaks_last_write_wins :
    (applyOptions ([PublicOption.exec ["a"], .envDefaults, .exec ["b"]].map PublicOption.fn)
        0 (portState "abc")).1.cfg.ExecArgs = ["a"] ∧
    (applyOptions ([PublicOption.exec ["a"], .envDefaults].map PublicOption.fn)
        0 (portState "abc")).1.cfg.ExecArgs = ["a"] ∧
    (applyOptions ([PublicOption.envDefaults, .exec ["a"]].map PublicOption.fn)
        0 (portState "abc")).1.cfg.ExecArgs = [] ∧
    (applyOptions ([PublicOption.exec ["a"], .envDefaults].map PublicOption.fn)
        0 (portState "abc")).1.cfg
      ≠ (applyOptions ([PublicOption.envDefaults, .exec ["a"]].map PublicOption.fn)
        0 (portState "abc")).1.cfg := by
  refine ⟨rfl, rfl, rfl, ?_⟩
  decide

end ceb
